import Mathlib

/-! Object query, filter and sort engine (anytype-heart)

A shallow embedding of the parts of the repository that the verified
properties are about:

* the filter compiler `NewFilters` and the order extractor `extractOrder` of
  `pkg/lib/database` (exercised by `pkg/lib/database/database_test.go`);
* the batched identifier lookup `queryAndFilterObjectsByRelation` of
  `core/block/export` (exercised by `core/block/export/export_test.go`);
* the date suggestions of `core/date/suggest.go`;
* the relations mapper of `core/block/editor/accountobject/relationsmapper.go`;
* the UTF-16 text helpers of `util/text/text.go`;
* the proxy store of `core/filestorage/proxystore.go`;
* the pass "set documents names" of `core/block/editor/import/import.go`.
-/
namespace Database

/-! ## Data model -/

/-- Modelled from the spec: the typed value of a relation, the tagged union of
the data model (§3). A float64 is carried by its IEEE-754 bit pattern. -/
inductive Value where
  | absent
  | bool (b : Bool)
  | int64 (i : Int)
  | float64 (bits : Nat)
  | string (s : String)
  | stringList (l : List String)
  | idReference (id : String)
  | idReferenceList (ids : List String)
  deriving DecidableEq, Repr

/-- Modelled from the spec: the closed enumeration of relation formats (§3). -/
inductive RelationFormat where
  | shorttext | longtext | number | date | checkbox | status | tag | object
  | file | email | url | phone | emoji | relations
  deriving DecidableEq, Repr

/-- Modelled from the spec: the conditions of a leaf predicate (§3). -/
inductive Condition where
  | Equal | NotEqual | Greater | Less | GreaterOrEqual | LessOrEqual | Like
  | In | NotIn | Exists | Empty | NotEmpty | AllIn | NotAllIn | ExactIn
  deriving DecidableEq, Repr

/-- Operator of a combinator node (`BlockContentDataviewFilter_And`,
`BlockContentDataviewFilter_Or`); a request with operator `No` is a leaf. -/
inductive Operator where
  | And | Or
  deriving DecidableEq, Repr

/-- Modelled from the spec: a leaf predicate, one relation-key / condition /
value test with its declared format (§3). -/
structure Leaf where
  relationKey : String
  condition : Condition
  value : Value
  format : RelationFormat
  deriving DecidableEq, Repr

/-- Modelled from the spec: a filter request, either a leaf (operator `No` in
`database_test.go`) or a combinator node carrying an ordered sequence of nested
requests (§3). -/
inductive FilterRequest where
  | leaf (l : Leaf)
  | node (operator : Operator) (nestedFilters : List FilterRequest)
  deriving Repr

/-- Modelled from the spec: the compiled predicate tree, the tagged variant
of §9: `FiltersAnd`, `FiltersOr` or a leaf. -/
inductive Filter where
  | leaf (l : Leaf)
  | and (children : List Filter)
  | or (children : List Filter)
  deriving Repr

/-- Direction of a sort (`BlockContentDataviewSort_Asc` / `Desc`). -/
inductive SortType where
  | Asc | Desc
  deriving DecidableEq, Repr

/-- A sort request. `IncludeTime` is a plain Go `bool`: an entry that does not
set it carries `false`. `Direction` is the Go field `Type`. -/
structure SortRequest where
  RelationKey : String := ""
  Format : RelationFormat := RelationFormat.shorttext
  Direction : SortType := SortType.Asc
  IncludeTime : Bool := false
  CustomOrder : List Value := []
  deriving Repr

/-- Collation mode of a string comparison. -/
inductive Collation where
  | localeAware
  deriving DecidableEq, Repr

/-- Modelled from the spec: one sort criterion (§3, §4.2). -/
structure KeyOrder where
  Key : String
  Direction : SortType
  IncludeTime : Bool
  collation : Option Collation
  deriving DecidableEq, Repr

/-- Modelled from the spec: an element of a `SetOrder`, a `KeyOrder` or a
custom-order variant (§3). -/
inductive Order where
  | keyOrder (k : KeyOrder)
  | customOrder (ids : List Value) (k : KeyOrder)
  deriving Repr

/-- Ordered sequence of sort criteria. -/
abbrev SetOrder := List Order

/-- The query description handed to the engine. -/
structure Query where
  SpaceId : String := ""
  Filters : List FilterRequest := []
  Sorts : List SortRequest := []
  Limit : Nat := 0
  Offset : Nat := 0
  FullText : String := ""
  deriving Repr

/-- Modelled from the spec: the compiled query, the predicate tree and the
extracted order (§3). -/
structure Filters where
  FilterObj : Filter
  Order : SetOrder
  deriving Repr

/-- Modelled from the spec: why a filter request does not compile (§4.1,
"Failure"). -/
inductive CompilationError where
  | missingRelationKey
  | emptyNestedFilters
  | unknownPairing (c : Condition) (f : RelationFormat)
  deriving DecidableEq, Repr

/-! ## Sort/order extractor -/

/-- Modelled from the spec: the text formats, whose values are compared with
locale-aware collation (§4.2). -/
def isTextFormat : RelationFormat → Bool
  | RelationFormat.shorttext => true
  | RelationFormat.longtext => true
  | _ => false

/-- Modelled from the spec: `isIncludeTime`, the per-entry rule of §4.2, is not
among the sources. A lone date sort compares with full timestamp precision, an
explicit `IncludeTime` is honoured verbatim, every other entry gets `false`. -/
def isIncludeTime (sorts : List SortRequest) (s : SortRequest) : Bool :=
  (sorts.length == 1 && decide (s.Format = RelationFormat.date)) || s.IncludeTime

/-- Modelled from the spec: `queryBuilder.extractOrder` is not among the
sources (only its tests in `database_test.go` are). Following §4.2 every sort
entry yields, in request order, one `KeyOrder` carrying the entry's key, its
direction, the time-granularity flag of `isIncludeTime` and, for text formats,
locale-aware collation. §4.2 gives no rule that yields a custom-order variant. -/
def extractOrder (sorts : List SortRequest) : SetOrder :=
  sorts.map fun s =>
    Order.keyOrder
      { Key := s.RelationKey
        Direction := s.Direction
        IncludeTime := isIncludeTime sorts s
        collation := if isTextFormat s.Format then some Collation.localeAware else none }

/-! ## Filter compiler -/

mutual
/-- Modelled from the spec: `MakeFilter`, the conversion of one request node
(§4.1 step 2 and "Failure"), is not among the sources. A node becomes a node of
the same shape; a leaf without relation key, a combinator without nested
filters and an unknown condition/format pairing do not compile. Which pairings
are known is the parameter `known`. -/
def MakeFilter (known : Condition → RelationFormat → Bool) :
    FilterRequest → Except CompilationError Filter
  | FilterRequest.leaf l =>
    if l.relationKey = "" then Except.error CompilationError.missingRelationKey
    else if known l.condition l.format then Except.ok (Filter.leaf l)
    else Except.error (CompilationError.unknownPairing l.condition l.format)
  | FilterRequest.node op nested =>
    match nested with
    | [] => Except.error CompilationError.emptyNestedFilters
    | f :: fs =>
      match MakeFilterList known (f :: fs) with
      | Except.error e => Except.error e
      | Except.ok cs =>
        match op with
        | Operator.And => Except.ok (Filter.and cs)
        | Operator.Or => Except.ok (Filter.or cs)
/-- Modelled from the spec: the depth-first walk over an ordered sequence of
requests; the first node that does not compile fails the whole sequence. -/
def MakeFilterList (known : Condition → RelationFormat → Bool) :
    List FilterRequest → Except CompilationError (List Filter)
  | [] => Except.ok []
  | f :: fs =>
    match MakeFilter known f with
    | Except.error e => Except.error e
    | Except.ok c =>
      match MakeFilterList known fs with
      | Except.error e => Except.error e
      | Except.ok cs => Except.ok (c :: cs)
end

/-- Relation key of a compiled node when it is a leaf. -/
def Filter.key? : Filter → Option String
  | Filter.leaf l => some l.relationKey
  | _ => none

/-- Whether a compiled node is a combinator (`FiltersAnd` / `FiltersOr`). -/
def Filter.isCombinator : Filter → Bool
  | Filter.leaf _ => false
  | _ => true

/-- The leaf of a compiled node, when it is one. -/
def Filter.asLeaf : Filter → Option Leaf
  | Filter.leaf l => some l
  | _ => none

/-- Children of a compiled combinator; a leaf has none. -/
def Filter.children : Filter → List Filter
  | Filter.leaf _ => []
  | Filter.and cs => cs
  | Filter.or cs => cs

/-- Number of elements of a compiled `FiltersAnd` / `FiltersOr` (Go `len`). -/
def Filter.len (f : Filter) : Nat := f.children.length

/-- Modelled from the spec: a slot of the top AND level while the default set
is merged with the user leaves (§4.1 step 3): the leaf it holds and whether
that leaf is still the default one. -/
structure Slot where
  leaf : Leaf
  isDefault : Bool
  deriving DecidableEq, Repr

/-- Modelled from the spec: the replacement half of the reconciliation rule
(§4.1 step 3). The user leaf takes the slot of the first default leaf on the
same relation key; `none` when no default leaf on that key is left. -/
def supersede (u : Leaf) : List Slot → Option (List Slot)
  | [] => none
  | s :: rest =>
    if s.isDefault && decide (s.leaf.relationKey = u.relationKey) then
      some ({ leaf := u, isDefault := false } :: rest)
    else
      match supersede u rest with
      | some rest1 => some (s :: rest1)
      | none => none

/-- Modelled from the spec: one step of the reconciliation rule. A user leaf
on the key of a default leaf replaces it in place, a leaf on another key is
appended. -/
def place (slots : List Slot) (u : Leaf) : List Slot :=
  match supersede u slots with
  | some slots1 => slots1
  | none => slots ++ [{ leaf := u, isDefault := false }]

/-- Modelled from the spec: the reconciliation rule of §4.1 step 3 over the
user leaves of the top AND level, in request order, starting from the default
predicate set. -/
def reconcile (defaults : List Leaf) (leaves : List Leaf) : List Leaf :=
  (leaves.foldl place (defaults.map fun d => { leaf := d, isDefault := true })).map Slot.leaf

/-- Modelled from the spec: the user nodes of the top AND level. A request
list that is exactly one AND node has that node as its top AND level
(`database_test.go`, "and filter with 3 default": two nested leaves give five
elements); any other request list is an implicit AND over its siblings. -/
def topLevel : List Filter → List Filter
  | [Filter.and cs] => cs
  | fs => fs

/-- Modelled from the spec: the merge of the default set with the compiled
user tree at the top AND level (§4.1 step 3). Nested combinators are never
flattened and take one slot each; the spec does not say which, and
`database_test.go` ("or filter with 3 default") reads the OR node at index 0,
so the combinator slots come first, followed by the reconciled leaves. -/
def mergeDefaults (defaults : List Leaf) (user : List Filter) : List Filter :=
  user.filter Filter.isCombinator ++
    (reconcile defaults (user.filterMap Filter.asLeaf)).map Filter.leaf

/-- Modelled from the spec: `NewFilters` (the contract `Compile(query,
defaultFilters)` of §4.1) is not among the sources, only its tests in
`database_test.go` are. The user tree is compiled first, so a malformed request
yields an error and no tree; the default predicate set is then merged in at the
top AND level and the order is extracted from the sorts. -/
def NewFilters (known : Condition → RelationFormat → Bool) (defaults : List Leaf)
    (query : Query) : Except CompilationError Filters :=
  match MakeFilterList known query.Filters with
  | Except.error e => Except.error e
  | Except.ok user =>
    Except.ok
      { FilterObj := Filter.and (mergeDefaults defaults (topLevel user))
        Order := extractOrder query.Sorts }

/-- Modelled from the spec: the reference configuration of the default
predicate set (§4.1 step 1): "not soft-deleted", "not archived" and one
further invariant. The spec does not name the third key; the properties below
hold for every default set of three leaves, this value instantiates them. -/
def defaultFilters : List Leaf :=
  [ { relationKey := "isDeleted", condition := Condition.NotEqual,
      value := Value.bool true, format := RelationFormat.checkbox },
    { relationKey := "isArchived", condition := Condition.NotEqual,
      value := Value.bool true, format := RelationFormat.checkbox },
    { relationKey := "spaceId", condition := Condition.Equal,
      value := Value.string "space1", format := RelationFormat.object } ]

/-- The typing collaborator of the tests: every pairing is known. -/
def allKnown : Condition → RelationFormat → Bool := fun _ _ => true

/-- A typing collaborator that knows no pairing. -/
def noneKnown : Condition → RelationFormat → Bool := fun _ _ => false

/-- A leaf without relation key. -/
def leafNoKey : Leaf :=
  { relationKey := "", condition := Condition.Equal,
    value := Value.string "Object 1", format := RelationFormat.shorttext }

/-- First leaf of the test requests: `relationKey` equals `option2`. -/
def leafRelationKey : Leaf :=
  { relationKey := "relationKey", condition := Condition.Equal,
    value := Value.string "option2", format := RelationFormat.status }

/-- Second leaf of the test requests: `name` equals `Object 1`. -/
def leafName : Leaf :=
  { relationKey := "name", condition := Condition.Equal,
    value := Value.string "Object 1", format := RelationFormat.shorttext }

/-- The leaf of the test "deleted filter". -/
def leafIsDeleted : Leaf :=
  { relationKey := "isDeleted", condition := Condition.Equal,
    value := Value.bool true, format := RelationFormat.longtext }

/-- The leaf of the test "archived filter". -/
def leafIsArchived : Leaf :=
  { relationKey := "isArchived", condition := Condition.Equal,
    value := Value.bool true, format := RelationFormat.longtext }

/-- A leaf the compiler accepts: it has a relation key and its
condition/format pairing is known. -/
def Leaf.wellFormed (known : Condition → RelationFormat → Bool) (l : Leaf) : Bool :=
  decide (l.relationKey ≠ "") && known l.condition l.format

/-- No default slot is left on the key of `u`. -/
def noDefaultOn (u : Leaf) (slots : List Slot) : Prop :=
  ∀ s ∈ slots, s.isDefault = true → s.leaf.relationKey ≠ u.relationKey

/-- The slots appended for user leaves. -/
def userSlots (leaves : List Leaf) : List Slot :=
  leaves.map fun l => { leaf := l, isDefault := false }

/-- The slots the default predicate set starts from. -/
def defaultSlots (defaults : List Leaf) : List Slot :=
  defaults.map fun d => { leaf := d, isDefault := true }

/-- The default set with the leaf on the key of `u` replaced, in its slot, by
`u`. -/
def replaceKey (u : Leaf) (defaults : List Leaf) : List Leaf :=
  defaults.map fun d => if d.relationKey = u.relationKey then u else d

/-- The test input `givenSingleDateSort`. -/
def givenSingleDateSort : List SortRequest :=
  [{ Format := RelationFormat.date }]

/-- The test input `givenNotSingleDateSort`. -/
def givenNotSingleDateSort : List SortRequest :=
  givenSingleDateSort ++ [{ Format := RelationFormat.shorttext }]

/-- The test input `givenSingleNotDateSort`. -/
def givenSingleNotDateSort : List SortRequest :=
  [{ Format := RelationFormat.shorttext }]

/-- The test input `givenSingleIncludeTime`. -/
def givenSingleIncludeTime : List SortRequest :=
  [{ Format := RelationFormat.shorttext, IncludeTime := true }]

/-! ## Records and the object store -/

/-- The relation key of the object identifier (`bundle.RelationKeyId`). -/
def RelationKeyId : String := "id"

/-- Details of an object (`types.Struct`): the mapping from relation key to
value; `Fields` is `none` for a nil map. -/
structure Details where
  Fields : Option (List (String × Value))
  deriving DecidableEq, Repr

/-- A record of the store (`database.Record`); `Details` is `none` for a nil
pointer. -/
structure Record where
  Details : Option Details
  deriving DecidableEq, Repr

/-- The Go accessor `GetStringValue`: the string of a string value, the empty
string for every other value. -/
def Value.GetStringValue : Value → String
  | Value.string s => s
  | _ => ""

/-- Value of a relation of a record, when the record carries it. -/
def Record.get (r : Record) (key : String) : Option Value :=
  match r.Details with
  | none => none
  | some d =>
    match d.Fields with
    | none => none
    | some fields => fields.lookup key

/-- The object identifier of a record: the string under the `id` key. -/
def Record.id (r : Record) : Option String :=
  match r.get RelationKeyId with
  | some (Value.string s) => some s
  | _ => none

/-- Modelled from the spec: the index of one space of the object store, an
external collaborator (§6): its records, one per object identifier. -/
structure SpaceIndex where
  records : List Record
  unique : (records.filterMap Record.id).Nodup

/-- Relation key of a request; a combinator node carries none. -/
def FilterRequest.RelationKey : FilterRequest → String
  | FilterRequest.leaf l => l.relationKey
  | FilterRequest.node _ _ => ""

/-- Value of a request; a combinator node carries none. -/
def FilterRequest.Value : FilterRequest → Value
  | FilterRequest.leaf l => l.value
  | FilterRequest.node _ _ => Value.absent

mutual
/-- Modelled from the spec: the malformed filter requests of §4.1 ("Failure").
A request tree is malformed when it contains a leaf without relation key, a
leaf whose condition/format pairing is not known, or a combinator node with an
empty list of nested filters. -/
def FilterRequest.malformed (known : Condition → RelationFormat → Bool) :
    FilterRequest → Bool
  | FilterRequest.leaf l => decide (l.relationKey = "") || !known l.condition l.format
  | FilterRequest.node _ nested =>
    match nested with
    | [] => true
    | f :: fs => FilterRequest.anyMalformed known (f :: fs)
/-- Modelled from the spec: some request of the sequence is malformed. -/
def FilterRequest.anyMalformed (known : Condition → RelationFormat → Bool) :
    List FilterRequest → Bool
  | [] => false
  | f :: fs => FilterRequest.malformed known f || FilterRequest.anyMalformed known fs
end

end Database

namespace Export

open Database

/-! ## Batched identifier lookup (`core/block/export`) -/

/-- Modelled from the spec: the store's answer to an `In` leaf on
`relationKey`. A record matches when its value under the key is a string of
the batch. -/
def matchesIn (relationKey : String) (batch : List String) (r : Record) : Bool :=
  match r.get relationKey with
  | some (Value.string s) => batch.contains s
  | _ => false

/-- Modelled from the spec: `queryObjectsByRelation`, one store query of the
executor (§4.3), is not among the sources. The store returns, in store order,
the records of the space that match the batch and pass the filters of the
query (`passes`, the default predicates evaluated on a record). -/
def queryObjectsByRelation (index : SpaceIndex) (passes : Record → Bool)
    (batch : List String) (relationKey : String) : List Record :=
  index.records.filter fun r => matchesIn relationKey batch r && passes r

/-- Modelled from the spec: the paging of §4.3 with a fuel bound. Each step
cuts the next `size` identifiers off the list. -/
def batchesFuel (size : Nat) : Nat → List String → List (List String)
  | 0, _ => []
  | fuel + 1, ids =>
    match ids with
    | [] => []
    | id :: rest => (id :: rest).take size :: batchesFuel size fuel ((id :: rest).drop size)

/-- Modelled from the spec: the bounded-size batches an identifier list is
paged through; `size` is the internal batch size, an implementation constant
the spec does not give. One step per identifier is enough fuel. -/
def batches (size : Nat) (ids : List String) : List (List String) :=
  batchesFuel size ids.length ids

/-- Modelled from the spec: `queryAndFilterObjectsByRelation` is not among the
sources (only its test in `export_test.go` is). Following §4.3 the identifier
list is paged through in batches of at most `size` identifiers, one store query
per batch, and the batch results are merged into one collection in batch
order. The store is the in-memory fixture of the test, which answers every
query. -/
def queryAndFilterObjectsByRelation (size : Nat) (store : String → SpaceIndex)
    (passes : Record → Bool) (spaceId : String) (reqIds : List String)
    (relationKey : String) : List Record :=
  (batches size reqIds).flatMap fun batch =>
    queryObjectsByRelation (store spaceId) passes batch relationKey

/-- The object the test adds for identifier `id`: its `id` and `spaceId`
details. -/
def testObject (spaceId id : String) : Record :=
  { Details := some { Fields := some [("id", Value.string id),
                                       ("spaceId", Value.string spaceId)] } }

/-- The identifiers of the test "query 10 objects". -/
def testIds : List String := ["0", "1", "2", "3", "4", "5", "6", "7", "8", "9"]

/-- The store fixture of the test "query 10 objects": ten objects in
`space1`, no object in any other space. -/
def testStore (spaceId : String) : SpaceIndex :=
  if spaceId = "space1" then
    { records := testIds.map (testObject "space1"), unique := by decide }
  else
    { records := [], unique := List.nodup_nil }

end Export

namespace Date

open Database

/-! ## Date suggestions (`core/date/suggest.go`) -/

/-- A Go `time.Time`: seconds and nanoseconds since January 1, year 1
00:00:00 UTC, and the name of the location. -/
structure Time where
  sec : Int
  nsec : Nat
  loc : String
  deriving DecidableEq, Repr

/-- The zero time `time.Time{}`. -/
def Time.zero : Time := { sec := 0, nsec := 0, loc := "UTC" }

/-- The Go method `Time.IsZero`: the instant January 1, year 1 00:00:00 UTC. -/
def Time.IsZero (t : Time) : Bool := t.sec == 0 && t.nsec == 0

/-- The space a date object is built in (`source.Space`). -/
structure Space where
  Id : String
  GetTypeIdByKey : String → Except String String

/-- Parameters of a date source (`source.DateSourceParams`). -/
structure DateSourceParams where
  ObjectID : String
  SpaceID : String
  DateObjectTypeId : String
  deriving DecidableEq, Repr

/-- A source returned by `source.NewDate`. `DetailsFromId` is `none` when the
source does not implement `SourceIdEndodedDetails`. -/
structure DateSource where
  DetailsFromId : Option (Except String (Option Details))

/-- The request of an object search (`pb.RpcObjectSearchRequest`). -/
structure RpcObjectSearchRequest where
  SpaceId : String := ""
  Filters : List FilterRequest := []
  FullText : String := ""

/-- The collaborators of `suggest.go` that are not among the sources: the
clock and calendar of package `time`, the two date parsers, `dateutil`,
`pbtypes`, the space service, `source.NewDate` and the filter compiler and
evaluator of package `database`. -/
structure Env where
  /-- Go `time.Now()`. -/
  Now : Time
  /-- Go `Time.Year`. -/
  Year : Time → Int
  /-- Go `Time.Month`. -/
  Month : Time → Nat
  /-- Go `Time.Day`. -/
  Day : Time → Nat
  /-- Go `Time.Clock`: hour, minute, second. -/
  Clock : Time → Nat × Nat × Nat
  /-- Go `time.Date(year, month, day, hour, min, sec, nsec, loc)`. -/
  Date : Int → Nat → Nat → Nat → Nat → Nat → Nat → String → Time
  /-- The call `naturaldate.Parse(raw, now)`: the time and the expression type,
  or the error. -/
  naturaldateParse : String → Time → Except String (Time × Nat)
  /-- The constant `naturaldate.ExprTypeInvalid`. -/
  ExprTypeInvalid : Nat
  /-- The bit `naturaldate.ExprTypeClock24Hour`. -/
  ExprTypeClock24Hour : Nat
  /-- The call `dateparse.ParseIn(raw, loc, dateparse.PreferMonthFirst(false))`. -/
  dateparseParseIn : String → String → Except String Time
  /-- The identifier `dateutil.NewDateObject(t, includeTime).Id()`. -/
  NewDateObjectId : Time → Bool → String
  /-- The call `dateutil.BuildDateObjectFromId(id)`, its error when it fails. -/
  BuildDateObjectFromId : String → Except String Unit
  /-- The helper `pbtypes.GetStringListValue`. -/
  GetStringListValue : Value → List String
  /-- The constant `bundle.TypeKeyDate`. -/
  TypeKeyDate : String
  /-- The call `spaceService.Get(ctx, spaceId)`. -/
  spaceServiceGet : String → Except String Space
  /-- The constructor `source.NewDate`. -/
  NewDate : DateSourceParams → DateSource
  /-- The call `store.SpaceIndex(spaceId)`. -/
  storeSpaceIndex : String → Database.SpaceIndex
  /-- The call `database.MakeFilters(filters, index)`: the Go pair of the compiled
  filter (`none` for a nil interface) and the error (`none` for nil). -/
  MakeFilters : List FilterRequest → Database.SpaceIndex → Option Filter × Option String
  /-- The method `Filter.FilterObject(details)` of a compiled filter. -/
  FilterObject : Filter → Option Details → Bool

/-- Go `unicode.IsSpace`. -/
def isSpace (c : Char) : Bool :=
  let n := c.toNat
  (9 ≤ n && n ≤ 13) || n == 32 || n == 133 || n == 160 || n == 5760 ||
    (8192 ≤ n && n ≤ 8202) || n == 8232 || n == 8233 || n == 8239 || n == 8287 || n == 12288

/-- Go `strings.TrimSpace`: the text without its leading and trailing white
space. -/
def TrimSpace (s : String) : String :=
  String.mk ((s.data.dropWhile isSpace).reverse.dropWhile isSpace).reverse

/-- Value of a run of decimal digits. -/
def digitsValue (ds : List Char) : Nat :=
  ds.foldl (fun acc d => 10 * acc + (d.toNat - 48)) 0

/-- Go `strconv.Atoi` on a 64-bit platform: an optional sign and one or more
decimal digits, the value within the range of `int`; `none` is a non-nil
error. -/
def Atoi (s : String) : Option Int :=
  let signed : Bool × List Char :=
    match s.data with
    | c :: rest => if c.toNat == 43 then (false, rest) else if c.toNat == 45 then (true, rest)
                   else (false, c :: rest)
    | [] => (false, [])
  let digits := signed.2
  if digits.isEmpty || !(digits.all fun d => 48 ≤ d.toNat && d.toNat ≤ 57) then none
  else
    let v : Int := if signed.1 then - (digitsValue digits : Int) else (digitsValue digits : Int)
    if - (2 : Int) ^ 63 ≤ v && v < (2 : Int) ^ 63 then some v else none

/-- The first suggester of `suggestDateForSearch`: the natural-language
parser, its result dropped for an error, an invalid expression and a 24-hour
clock expression. -/
def suggestNatural (env : Env) (now : Time) (raw : String) : Time :=
  match env.naturaldateParse raw now with
  | Except.error _ => Time.zero
  | Except.ok (t, exprType) =>
    if exprType = env.ExprTypeInvalid then Time.zero
    else if exprType &&& env.ExprTypeClock24Hour ≠ 0 then Time.zero
    else t

/-- The second suggester of `suggestDateForSearch`: `dateparse`, not used for
plain numbers. -/
def suggestDateparse (env : Env) (now : Time) (raw : String) : Time :=
  match Atoi (TrimSpace raw) with
  | some _ => Time.zero
  | none =>
    match env.dateparseParseIn raw now.loc with
    | Except.error _ => Time.zero
    | Except.ok t => t

/-- The loop over the suggesters: the first result that is not zero, else the
last result; `t` is the result so far. -/
def runSuggesters (t : Time) : List (Unit → Time) → Time
  | [] => t
  | s :: rest =>
    let t1 := s ()
    if !t1.IsZero then t1 else runSuggesters t1 rest

/-- The function `suggestDateForSearch` of `suggest.go`. -/
def suggestDateForSearch (env : Env) (now : Time) (raw : String) : Time :=
  if raw = "date" then
    env.Date (env.Year now) (env.Month now) (env.Day now) 0 0 0 0 now.loc
  else
    let t := runSuggesters Time.zero
      [fun _ => suggestNatural env now raw, fun _ => suggestDateparse env now raw]
    if t.IsZero then t
    else if env.Year t = 0 then
      env.Date (env.Year now) (env.Month t) (env.Day t)
        (env.Clock t).1 (env.Clock t).2.1 (env.Clock t).2.2 0 t.loc
    else t

/-- The loop of `suggestDateObjectIds` over the filters of the request: the
date object ids of the first filter keyed `id`. -/
def dateObjectIdsOfFilters (env : Env) : List FilterRequest → List String
  | [] => []
  | filter :: rest =>
    if filter.RelationKey = RelationKeyId then
      (env.GetStringListValue filter.Value).filter fun id =>
        match env.BuildDateObjectFromId id with
        | Except.ok _ => true
        | Except.error _ => false
    else dateObjectIdsOfFilters env rest

/-- The function `suggestDateObjectIds` of `suggest.go`. -/
def suggestDateObjectIds (env : Env) (req : RpcObjectSearchRequest) : List String :=
  let dt := suggestDateForSearch env env.Now req.FullText
  if !dt.IsZero then [env.NewDateObjectId dt false]
  else dateObjectIdsOfFilters env req.Filters

/-- The function `recordsHasId` of `suggest.go`. -/
def recordsHasId : List Record → String → Bool
  | [], _ => false
  | r :: rest, id =>
    match r.Details with
    | none => recordsHasId rest id
    | some d =>
      match d.Fields with
      | none => recordsHasId rest id
      | some fields =>
        match fields.lookup RelationKeyId with
        | some v => if v.GetStringValue = id then true else recordsHasId rest id
        | none => recordsHasId rest id

/-- The function `makeSuggestedDateRecord` of `suggest.go`. -/
def makeSuggestedDateRecord (env : Env) (spc : Space) (id : String) : Except String Record :=
  match spc.GetTypeIdByKey env.TypeKeyDate with
  | Except.error e =>
    Except.error ("failed to find Date type to build Date object: " ++ e)
  | Except.ok typeId =>
    match (env.NewDate { ObjectID := id, SpaceID := spc.Id, DateObjectTypeId := typeId }).DetailsFromId with
    | none => Except.error "source does not implement DetailsFromId"
    | some (Except.error e) => Except.error e
    | some (Except.ok details) => Except.ok { Details := details }

/-- How a call of `EnrichRecordsWithDateSuggestions` ends. -/
inductive Outcome where
  /-- The Go result `(records, nil)`. -/
  | ok (records : List Record)
  /-- The Go result `(nil, err)`. -/
  | error (err : String)
  /-- A run-time panic: a method called on a nil interface. -/
  | panic
  deriving DecidableEq, Repr

/-- The loop of `EnrichRecordsWithDateSuggestions` over the suggested ids;
`records` is the list as extended so far. The error of `MakeFilters` is
dropped, as in the source, and the filter it returned is evaluated. -/
def enrichLoop (env : Env) (spc : Space) (req : RpcObjectSearchRequest) :
    List String → List Record → Outcome
  | [], records => Outcome.ok records
  | id :: ids, records =>
    if recordsHasId records id then enrichLoop env spc req ids records
    else
      match makeSuggestedDateRecord env spc id with
      | Except.error e => Outcome.error ("make date record: " ++ e)
      | Except.ok rec =>
        match (env.MakeFilters req.Filters (env.storeSpaceIndex req.SpaceId)).1 with
        | none => Outcome.panic
        | some f =>
          if env.FilterObject f rec.Details then enrichLoop env spc req ids (rec :: records)
          else enrichLoop env spc req ids records

/-- The function `EnrichRecordsWithDateSuggestions` of `suggest.go`. -/
def EnrichRecordsWithDateSuggestions (env : Env) (records : List Record)
    (req : RpcObjectSearchRequest) : Outcome :=
  let ids := suggestDateObjectIds env req
  if ids.isEmpty then Outcome.ok records
  else
    match env.spaceServiceGet req.SpaceId with
    | Except.error e => Outcome.error ("get space: " ++ e)
    | Except.ok spc => enrichLoop env spc req ids records

/-! ### A stub environment -/

/-- Evaluation of a leaf by the stub evaluator: `Equal` compares the value
under the key, `In` looks the string under the key up in a string list. -/
def stubLeafAccepts (l : Leaf) (details : Option Details) : Bool :=
  match ({ Details := details } : Record).get l.relationKey with
  | none => false
  | some v =>
    match l.condition, l.value with
    | Condition.Equal, w => decide (v = w)
    | Condition.In, Value.stringList ids => ids.contains v.GetStringValue
    | _, _ => false

/-- A stub evaluator: an AND of leaves accepts the details all its leaves
accept. -/
def stubFilterObject (f : Filter) (details : Option Details) : Bool :=
  match f with
  | Filter.and cs =>
    cs.all fun c =>
      match c with
      | Filter.leaf l => stubLeafAccepts l details
      | _ => false
  | Filter.leaf l => stubLeafAccepts l details
  | Filter.or _ => false

/-- A stub of the collaborators: both parsers fail, an identifier is a date
object id when it starts with `_date_`, every space exists and knows the date
type, and the filters are compiled by `MakeFilterList`. -/
def stubEnv : Env where
  Now := { sec := 63839836800, nsec := 0, loc := "UTC" }
  Year := fun _ => 2024
  Month := fun _ => 1
  Day := fun _ => 1
  Clock := fun _ => (0, 0, 0)
  Date := fun _ _ _ _ _ _ _ loc => { sec := 63839836800, nsec := 0, loc := loc }
  naturaldateParse := fun _ _ => Except.error "no date"
  ExprTypeInvalid := 0
  ExprTypeClock24Hour := 4
  dateparseParseIn := fun _ _ => Except.error "no date"
  NewDateObjectId := fun _ _ => "_date_2024-01-01"
  BuildDateObjectFromId := fun id =>
    if id.data.take 6 = "_date_".data then Except.ok () else Except.error "not a date id"
  GetStringListValue := fun v =>
    match v with
    | Value.stringList l => l
    | Value.string s => [s]
    | _ => []
  TypeKeyDate := "date"
  spaceServiceGet := fun spaceId =>
    Except.ok { Id := spaceId, GetTypeIdByKey := fun _ => Except.ok "dateTypeId" }
  NewDate := fun p =>
    { DetailsFromId := some (Except.ok (some
        { Fields := some [("id", Value.string p.ObjectID),
                          ("spaceId", Value.string p.SpaceID),
                          ("type", Value.string p.DateObjectTypeId)] })) }
  storeSpaceIndex := fun _ => { records := [], unique := List.nodup_nil }
  MakeFilters := fun filters _ =>
    match MakeFilterList allKnown filters with
    | Except.ok cs => (some (Filter.and cs), none)
    | Except.error _ => (none, some "filters do not compile")
  FilterObject := stubFilterObject

/-- The space the stub space service returns for `space1`. -/
def stubSpace : Space :=
  { Id := "space1", GetTypeIdByKey := fun _ => Except.ok "dateTypeId" }

/-- A filter on the `id` key that lists one date object id. -/
def leafDateId : Leaf :=
  { relationKey := "id", condition := Condition.In,
    value := Value.stringList ["_date_2024-01-01"], format := RelationFormat.object }

/-- The synthetic record the stub builds for `_date_2024-01-01` in `space1`. -/
def stubDateRecord : Record :=
  { Details := some { Fields := some [("id", Value.string "_date_2024-01-01"),
                                       ("spaceId", Value.string "space1"),
                                       ("type", Value.string "dateTypeId")] } }

/-- A stored record with identifier `obj1`. -/
def storedRecord : Record :=
  { Details := some { Fields := some [("id", Value.string "obj1"),
                                       ("spaceId", Value.string "space1")] } }

/-- Whether `id` is a valid date object id: `dateutil.BuildDateObjectFromId`
returns no error. -/
def validDateObjectId (env : Env) (id : String) : Bool :=
  match env.BuildDateObjectFromId id with
  | Except.ok _ => true
  | Except.error _ => false

/-- The stub with a space service that finds no space. -/
def noSpaceEnv : Env :=
  { stubEnv with spaceServiceGet := fun _ => Except.error "space not found" }

/-- The stub with a date source that does not provide details and a filter
compiler that returns no filter: building or evaluating a synthetic record
cannot succeed. -/
def noBuildEnv : Env :=
  { stubEnv with
    NewDate := fun _ => { DetailsFromId := none }
    MakeFilters := fun _ _ => (none, some "filters do not compile") }

/-- The stub with a filter compiler that returns, for every request, an empty
AND together with an error. -/
def partialFiltersEnv : Env :=
  { stubEnv with MakeFilters := fun _ _ => (some (Filter.and []), some "filters do not compile") }

/-- A search request whose `id` filter lists one date object id. -/
def dateIdRequest : RpcObjectSearchRequest :=
  { SpaceId := "space1", Filters := [FilterRequest.leaf leafDateId] }

/-- A search request with the `id` filter and a malformed filter, an AND node
without nested filters. -/
def malformedRequest : RpcObjectSearchRequest :=
  { SpaceId := "space1",
    Filters := [FilterRequest.leaf leafDateId, FilterRequest.node Operator.And []] }

/-- A filter on the `id` key listing date object ids, one of them twice, and
an identifier that is no date object id. -/
def leafMixedIds : Leaf :=
  { relationKey := "id", condition := Condition.In,
    value := Value.stringList ["_date_2024-01-02", "obj1", "_date_2024-01-02", "_date_2024-01-03"],
    format := RelationFormat.object }

/-- A search request with a filter on `name`, the filter `leafMixedIds` and a
later filter on `id`. -/
def mixedIdsRequest : RpcObjectSearchRequest :=
  { SpaceId := "space1",
    Filters := [FilterRequest.leaf leafName, FilterRequest.leaf leafMixedIds,
                FilterRequest.leaf leafDateId] }

/-- A filter on the `id` key that lists the same date object id twice. -/
def leafRepeatedId : Leaf :=
  { relationKey := "id", condition := Condition.In,
    value := Value.stringList ["_date_2024-01-01", "_date_2024-01-01"],
    format := RelationFormat.object }

/-- A search request whose `id` filter lists the same date object id twice. -/
def repeatedIdRequest : RpcObjectSearchRequest :=
  { SpaceId := "space1", Filters := [FilterRequest.leaf leafRepeatedId] }

end Date

namespace AccountObject

open Database

/-! ## Relations mapper (`core/block/editor/accountobject/relationsmapper.go`) -/

/-- The Go type `KeyType`, an `int`. -/
abbrev KeyType := Int

/-- The constant `KeyTypeString`. -/
def KeyTypeString : KeyType := 0

/-- The constant `KeyTypeInt64`. -/
def KeyTypeInt64 : KeyType := 1

/-- The struct `relationsMapper`: its `keys` map, `none` for a key that is not
in the map. -/
structure relationsMapper where
  keys : String → Option KeyType

/-- A stored document (`*anyenc.Value`), seen through the two accessors the
mapper calls: `GetStringBytes`, `none` for a nil slice, and `GetInt`. -/
structure AnyencValue where
  GetStringBytes : String → Option String
  GetInt : String → Int

/-- The method `relationsMapper.GetRelationKey`. `domain.Invalid()` is the
absent value. -/
def GetRelationKey (r : relationsMapper) (key : String) (val : AnyencValue) : Value × Bool :=
  match r.keys key with
  | none => (Value.absent, false)
  | some kt =>
    if kt = KeyTypeString then
      match val.GetStringBytes key with
      | none => (Value.absent, false)
      | some bytes => (Value.string bytes, true)
    else if kt = KeyTypeInt64 then
      let n := val.GetInt key
      if n = 0 then (Value.absent, false) else (Value.int64 n, true)
    else (Value.absent, false)

/-- A protobuf value (`*types.Value`): a nil pointer or one of the kinds. A
number is carried by the bit pattern of its float64. -/
inductive PbValue where
  | nilPointer
  | NullValue
  | NumberValue (bits : Nat)
  | StringValue (s : String)
  | BoolValue (b : Bool)
  | StructValue (fields : List (String × PbValue))
  | ListValue (values : List PbValue)

/-- The Go accessor `GetStringValue`: the empty string unless the value is a
string. -/
def PbValue.GetStringValue : PbValue → String
  | PbValue.StringValue s => s
  | _ => ""

/-- The Go accessor `GetNumberValue`: the bits of `0.0` unless the value is a
number. -/
def PbValue.GetNumberValue : PbValue → Nat
  | PbValue.NumberValue bits => bits
  | _ => 0

/-- A value of the Go type `any` as `GetStoreKey` produces it: nil, or a
dynamic type together with a value of that type. -/
inductive GoAny where
  | nil
  | string (s : String)
  | int64 (i : Int)
  | int (i : Int)
  deriving DecidableEq, Repr

/-- The call `fmt.Sprintf` with the format `"%s"` in double quotes, as in the
source: the string wrapped in one pair of double quotes. -/
def quoted (s : String) : String :=
  String.singleton (Char.ofNat 34) ++ s ++ String.singleton (Char.ofNat 34)

/-- The method `relationsMapper.GetStoreKey`. `toInt64` is the Go conversion
`int64(f)` of a float64, given by its bits. The result `res` has type `any`:
in `res == ""` and `res == 0` the constant is converted to `any` with its
default type, `string` and `int`, and two `any` values are equal when their
dynamic types and their values are; `res` holds an `int64` in the second
comparison. A `KeyType` that is neither constant leaves `res` nil. -/
def GetStoreKey (toInt64 : Nat → Int) (r : relationsMapper) (key : String) (val : PbValue) :
    GoAny × Bool :=
  match r.keys key with
  | none => (GoAny.nil, false)
  | some kt =>
    if kt = KeyTypeString then
      let res := GoAny.string val.GetStringValue
      if res = GoAny.string "" then (GoAny.nil, false)
      else (GoAny.string (quoted val.GetStringValue), true)
    else if kt = KeyTypeInt64 then
      let res := GoAny.int64 (toInt64 val.GetNumberValue)
      if res = GoAny.int 0 then (GoAny.nil, false) else (res, true)
    else (GoAny.nil, true)

/-- A mapper with a string key `name` and an integer key `iconOption`. -/
def stubMapper : relationsMapper :=
  { keys := fun key =>
      if key = "name" then some KeyTypeString
      else if key = "iconOption" then some KeyTypeInt64
      else none }

/-- A stored document with an empty `name` and `iconOption` 0. -/
def zeroDocument : AnyencValue :=
  { GetStringBytes := fun key => if key = "name" then some "" else none
    GetInt := fun _ => 0 }

/-- A stored document with `name` `Alice` and `iconOption` 5. -/
def aliceDocument : AnyencValue :=
  { GetStringBytes := fun key => if key = "name" then some "Alice" else none
    GetInt := fun key => if key = "iconOption" then 5 else 0 }

/-- A conversion of float64 bits that maps the bits of `0.0` to 0 and the bits
of `5.0` to 5. -/
def stubToInt64 (bits : Nat) : Int :=
  if bits = 4617315517961601024 then 5 else 0

/-- A mapper whose key `sharedSpacesLimit` carries the `KeyType` 2, a value
that is neither `KeyTypeString` nor `KeyTypeInt64`. -/
def unknownTypeMapper : relationsMapper :=
  { keys := fun key =>
      if key = "name" then some KeyTypeString
      else if key = "sharedSpacesLimit" then some 2
      else none }

end AccountObject

namespace Text

/-! ## Truncation by UTF-16 length (`util/text/text.go`) -/

/-- One step of the UTF-8 decoding of a Go string, as `for range` and the
conversion `[]rune(str)` perform it: a validly encoded character, or a byte
that is part of no valid encoding. -/
inductive GoChar where
  | rune (c : Char)
  | invalid (byte : Nat)
  deriving DecidableEq, Repr

/-- A Go string, given by the steps of its UTF-8 decoding. The concatenation
`a + b` is `a ++ b` when `a` is valid UTF-8, as every result of a conversion
`string([]rune)` is. -/
abbrev GoString := List GoChar

/-- The constant `utf8.RuneError`, also `replacementChar` of package `utf16`. -/
def RuneError : Nat := 65533

/-- The constant `surr1` of package `utf16`, 0xd800. -/
def surr1 : Nat := 55296

/-- The constant `surr2` of package `utf16`, 0xdc00. -/
def surr2 : Nat := 56320

/-- The constant `surr3` of package `utf16`, 0xe000. -/
def surr3 : Nat := 57344

/-- The constant `surrSelf` of package `utf16`, 0x10000. -/
def surrSelf : Nat := 65536

/-- The constant `maxRune` of package `utf16`, 0x10FFFF. -/
def maxRune : Nat := 1114111

/-- The rune of one decoding step: the character, or `RuneError` for an
invalid byte. -/
def GoChar.toRune : GoChar → Nat
  | GoChar.rune c => c.toNat
  | GoChar.invalid _ => RuneError

/-- The runes of a Go string: what `for _, r := range str` yields and what
`[]rune(str)` holds. -/
def runes (str : GoString) : List Nat :=
  str.map GoChar.toRune

/-- The character a rune is converted to by `string(r)`: the rune itself when
it is a Unicode scalar value, U+FFFD otherwise. -/
def runeToChar (r : Nat) : Char :=
  if r < surr1 ∨ (surr3 ≤ r ∧ r ≤ maxRune) then Char.ofNat r else Char.ofNat RuneError

/-- The Go conversion `string([]rune)`. -/
def stringOfRunes (rs : List Nat) : GoString :=
  rs.map fun r => GoChar.rune (runeToChar r)

/-- Go `utf16.EncodeRune` for a rune of the supplementary planes: the
surrogate pair. -/
def EncodeRune (r : Nat) : Nat × Nat :=
  (surr1 + (r - surrSelf) / 1024 % 1024, surr2 + (r - surrSelf) % 1024)

/-- Go `utf16.DecodeRune` for a valid surrogate pair. -/
def DecodeRune (r1 r2 : Nat) : Nat :=
  (r1 - surr1) * 1024 + (r2 - surr2) + surrSelf

/-- Go `utf16.AppendRune`: one unit for a rune of the Basic Multilingual
Plane, a surrogate pair for a supplementary rune, the replacement character
for a surrogate or a rune out of range. -/
def AppendRune (a : List Nat) (r : Nat) : List Nat :=
  if r < surr1 ∨ (surr3 ≤ r ∧ r < surrSelf) then a ++ [r]
  else if surrSelf ≤ r ∧ r ≤ maxRune then a ++ [(EncodeRune r).1, (EncodeRune r).2]
  else a ++ [RuneError]

/-- Go `utf16.Encode`. -/
def Encode : List Nat → List Nat
  | [] => []
  | v :: rest =>
    if v < surr1 ∨ (surr3 ≤ v ∧ v < surrSelf) then v :: Encode rest
    else if surrSelf ≤ v ∧ v ≤ maxRune then (EncodeRune v).1 :: (EncodeRune v).2 :: Encode rest
    else RuneError :: Encode rest

/-- Go `utf16.Decode`: a unit outside the surrogate range is a rune, a high
surrogate followed by a low surrogate is one rune, any other surrogate is the
replacement character. -/
def Decode : List Nat → List Nat
  | [] => []
  | r :: rest =>
    if r < surr1 ∨ surr3 ≤ r then r :: Decode rest
    else
      match rest with
      | [] => [RuneError]
      | r2 :: rest2 =>
        if surr1 ≤ r ∧ r < surr2 ∧ surr2 ≤ r2 ∧ r2 < surr3 then DecodeRune r r2 :: Decode rest2
        else RuneError :: Decode (r2 :: rest2)

/-- The loop of `UTF16RuneCountString` over the runes of the string; `n` is the
count so far. -/
def countLoop : List Nat → Nat → Nat
  | [], n => n
  | s :: rest, n => countLoop rest (n + (AppendRune [] s).length)

/-- The function `UTF16RuneCountString` of `text.go`. -/
def UTF16RuneCountString (str : GoString) : Nat :=
  countLoop (runes str) 0

/-- The function `StrToUTF16` of `text.go`. -/
def StrToUTF16 (str : GoString) : List Nat :=
  Encode (runes str)

/-- The function `UTF16ToStr` of `text.go`. -/
def UTF16ToStr (b : List Nat) : GoString :=
  stringOfRunes (Decode b)

/-- Go `unicode.IsSpace` on a code point. -/
def IsSpace (r : Nat) : Bool :=
  (9 ≤ r && r ≤ 13) || r == 32 || r == 133 || r == 160 || r == 5760 ||
    (8192 ≤ r && r ≤ 8202) || r == 8232 || r == 8233 || r == 8239 || r == 8287 || r == 12288

/-- The state of the loop of `Truncate` before the unit at index `i`. -/
structure TruncateState where
  i : Nat
  lastWordIndex : Nat
  lastNonSpace : Nat
  currentLen : Nat
  deriving DecidableEq, Repr

/-- The loop of `Truncate` over the units from index `st.i` on: `some
endTextPos` when the length is exceeded, `none` when the loop ends without.
`inScripts` is `unicode.In(r, unicode.Han, unicode.Hangul, unicode.Hiragana,
unicode.Katakana)`. -/
def truncateLoop (inScripts : Nat → Bool) (length : Int) : List Nat → TruncateState → Option Nat
  | [], _ => none
  | r :: rest, st =>
    let currentLen := st.currentLen + 1
    let lastWordIndex :=
      if IsSpace r then st.lastNonSpace
      else if inScripts r then st.i
      else st.lastWordIndex
    let lastNonSpace :=
      if IsSpace r then st.lastNonSpace
      else if inScripts r then st.lastNonSpace
      else st.i + 1
    if (currentLen : Int) > length then
      some (if lastWordIndex = 0 then st.i else lastWordIndex)
    else
      truncateLoop inScripts length rest
        { i := st.i + 1, lastWordIndex := lastWordIndex, lastNonSpace := lastNonSpace,
          currentLen := currentLen }

/-- The function `Truncate` of `text.go`. -/
def Truncate (inScripts : Nat → Bool) (text : GoString) (length : Int) (ending : GoString) :
    GoString :=
  let length1 := length - (UTF16RuneCountString ending : Int)
  if (UTF16RuneCountString text : Int) ≤ length1 then text
  else
    let utf16Text := StrToUTF16 text
    match truncateLoop inScripts length1 utf16Text
        { i := 0, lastWordIndex := 0, lastNonSpace := 0, currentLen := 0 } with
    | some endTextPos => UTF16ToStr (utf16Text.take endTextPos) ++ ending
    | none => UTF16ToStr utf16Text

/-- The constant `TruncateEllipsis`: a space and U+2026. -/
def TruncateEllipsis : GoString :=
  [GoChar.rune (Char.ofNat 32), GoChar.rune (Char.ofNat 8230)]

/-- The function `TruncateEllipsized` of `text.go`. -/
def TruncateEllipsized (inScripts : Nat → Bool) (text : GoString) (length : Int) : GoString :=
  Truncate inScripts text length TruncateEllipsis

/-- A Go string of valid characters. -/
def ofString (s : String) : GoString :=
  s.data.map GoChar.rune

/-- A script table that holds no unit. -/
def noScripts : Nat → Bool := fun _ => false

/-- The unit at index `j` is white space. -/
def spaceAt (units : List Nat) (j : Nat) : Prop :=
  ∃ u, units[j]? = some u ∧ IsSpace u = true

/-- The unit at index `k` is not white space. -/
def nonSpaceAt (units : List Nat) (k : Nat) : Prop :=
  ∃ u, units[k]? = some u ∧ IsSpace u = false

/-- The value of `lastNonSpace` before index `i` when no unit is in the
scripts: one more than the index of the last unit before `i` that is not white
space, 0 when there is none. -/
def lastNonSpaceIs (units : List Nat) (i lns : Nat) : Prop :=
  (lns = 0 ∧ ∀ t, t < i → spaceAt units t) ∨
  (∃ m, lns = m + 1 ∧ m < i ∧ nonSpaceAt units m ∧ ∀ t, m < t → t < i → spaceAt units t)

/-- The value of `lastWordIndex` before index `i` when no unit is in the
scripts: with `j` the last white-space unit before `i` and `k` the last unit
before `j` that is not white space, it is `k + 1`; it is 0 when no white-space
unit before `i` comes after a unit that is not white space. -/
def lastWordIndexIs (units : List Nat) (i lwi : Nat) : Prop :=
  (lwi = 0 ∧ ∀ j k, j < i → spaceAt units j → k < j → spaceAt units k) ∨
  (∃ j k, lwi = k + 1 ∧ j < i ∧ k < j ∧ spaceAt units j ∧
    (∀ j1, j < j1 → j1 < i → nonSpaceAt units j1) ∧ nonSpaceAt units k ∧
    ∀ k1, k < k1 → k1 < j → spaceAt units k1)

/-- The text `ab`, U+1F600, `cd`: five characters, six UTF-16 units. -/
def emojiText : GoString :=
  [GoChar.rune (Char.ofNat 97), GoChar.rune (Char.ofNat 98), GoChar.rune (Char.ofNat 128512),
   GoChar.rune (Char.ofNat 99), GoChar.rune (Char.ofNat 100)]

end Text

namespace Filestorage

/-! ## Proxy store (`core/filestorage/proxystore.go`) -/

/-- A content identifier (`cid.Cid`). -/
abbrev Cid := String

/-- A block (`blocks.Block`): its identifier and raw data. -/
structure Block where
  cid : Cid
  data : List Nat
  deriving DecidableEq, Repr

/-- A call on a collaborator of the proxy store, with what it was given and,
for the cache add, the error it returned. -/
inductive Call where
  | cacheGet (k : Cid)
  | originGet (k : Cid)
  | cacheAdd (bs : List (Option Block)) (addErr : Option String)
  deriving DecidableEq, Repr

/-- The struct `proxyStore` with the methods of its collaborators that `Get`
calls: `cache.Get`, `origin.Get` and `cache.Add`, each a Go pair of results
(`none` is nil), and `format.IsNotFound`. -/
structure proxyStore where
  cacheGet : Cid → Option Block × Option String
  originGet : Cid → Option Block × Option String
  cacheAdd : List (Option Block) → Option String
  IsNotFound : String → Bool

/-- The results `(b, err)` of `proxyStore.Get` and the calls it made on its
collaborators, in order. -/
structure GetResult where
  b : Option Block
  err : Option String
  calls : List Call
  deriving DecidableEq, Repr

/-- The method `proxyStore.Get`. -/
def proxyStore.Get (c : proxyStore) (k : Cid) : GetResult :=
  match c.cacheGet k with
  | (b, none) => { b := b, err := none, calls := [Call.cacheGet k] }
  | (b, some err) =>
    if c.IsNotFound err then
      match c.originGet k with
      | (b1, some err1) =>
        { b := b1, err := some err1, calls := [Call.cacheGet k, Call.originGet k] }
      | (b1, none) =>
        { b := b1, err := none,
          calls := [Call.cacheGet k, Call.originGet k, Call.cacheAdd [b1] (c.cacheAdd [b1])] }
    else { b := b, err := some err, calls := [Call.cacheGet k] }

/-- A block with identifier `cid1`. -/
def block1 : Block := { cid := "cid1", data := [1, 2, 3] }

/-- A proxy store whose cache does not hold `cid1` and cannot add, and whose
origin holds it. -/
def missStore : proxyStore :=
  { cacheGet := fun _ => (none, some "not found")
    originGet := fun k => if k = "cid1" then (some block1, none) else (none, some "no block")
    cacheAdd := fun _ => some "disk full"
    IsNotFound := fun err => err == "not found" }

/-- A proxy store whose cache holds `cid1`. -/
def hitStore : proxyStore :=
  { missStore with cacheGet := fun k =>
      if k = "cid1" then (some block1, none) else (none, some "not found") }

/-- A proxy store whose cache fails with an error that is no not-found error. -/
def brokenStore : proxyStore :=
  { missStore with cacheGet := fun _ => (none, some "io error") }

end Filestorage

namespace Import

/-! ## Markdown import, the pass "set documents names"
(`core/block/editor/import/import.go`) -/

/-- Style of a text block (`model.BlockContentText_Style`). -/
inductive TextStyle where
  | Paragraph | Header1 | Header2 | Header3 | Header4 | Quote | Code | Title
  | Checkbox | Marked | Numbered | Toggle | Description | Callout
  deriving DecidableEq, Repr

/-- A parsed block (`*model.Block`): a text block, a link, or a block with
other content, for which `GetText` returns nil. -/
inductive Block where
  | text (style : TextStyle) (text : String)
  | link (targetBlockId : String)
  | other
  deriving DecidableEq, Repr

/-- The fields of `fileInfo` the pass reads and writes. -/
structure fileInfo where
  pageID : String
  parsedBlocks : List Block
  title : String
  isRootFile : Bool
  hasInboundLinks : Bool
  deriving DecidableEq, Repr

/-- The request handed to `ctrl.SetDetails`: the context and, for each key of
the `fields` map, its string value. -/
structure SetDetailsRequest where
  ContextId : String
  Details : List (String × String)
  deriving DecidableEq, Repr

/-- The variable `articleIcons`. -/
def articleIcons : List String :=
  ["📓", "📕", "📗", "📘", "📙", "📖", "📔", "📒", "📝", "📄", "📑"]

/-- Whether `emojiAproxRegexp` matches the character: U+2194 to U+329F or
U+1F000 to U+1FADF. -/
def emojiAprox (c : Char) : Bool :=
  (8596 ≤ c.toNat && c.toNat ≤ 12959) || (126976 ≤ c.toNat && c.toNat ≤ 129759)

/-- Go `strings.SplitN(s, " ", 2)`: the text before the first space and the
text after it, or the text alone when it has no space. -/
def SplitN2 (s : String) : List String :=
  match s.data.span (fun c => c.toNat != 32) with
  | (before, _ :: after) => [String.mk before, String.mk after]
  | (before, []) => [String.mk before]

/-- Go `strings.Split(s, " ")`. -/
def Split (s : String) : List String :=
  (s.data.splitOn (Char.ofNat 32)).map String.mk

/-- Go `strings.Join(parts, " ")`. -/
def Join (parts : List String) : String :=
  String.mk (List.intercalate [Char.ofNat 32] (parts.map String.data))

/-- Go `filepath.Ext` with the separator `/`: the suffix of the last element
of the path from its last dot on, empty when it has no dot. `rev` is the path
read backwards, `acc` what has been read. -/
def extLoop : List Char → List Char → List Char
  | [], _ => []
  | c :: rev, acc =>
    if c.toNat = 47 then []
    else if c.toNat = 46 then c :: acc
    else extLoop rev (c :: acc)

/-- Go `filepath.Ext` with the separator `/`. -/
def Ext (path : String) : String :=
  String.mk (extLoop path.data.reverse [])

/-- Go `filepath.Base` with the separator `/`: the last element of the path,
trailing separators removed; `.` for the empty path and `/` for a path of
separators only. -/
def Base (path : String) : String :=
  if path.data = [] then "."
  else
    let stripped := (path.data.reverse.dropWhile fun c => c.toNat = 47)
    let last := (stripped.takeWhile fun c => c.toNat != 47).reverse
    if last = [] then "/" else String.mk last

/-- Go `strings.TrimSuffix`. -/
def TrimSuffix (s suffix : String) : String :=
  if suffix.data.isSuffixOf s.data then
    String.mk (s.data.take (s.data.length - suffix.data.length))
  else s

/-- The value the block `if title == "" { ... }` computes from the file name:
the base name without its extension and without its last space-separated
part. -/
def fileNameTitle (name : String) : String :=
  let title := TrimSuffix (Base name) (Ext name)
  let titleParts := Split title
  Join (titleParts.take (titleParts.length - 1))

/-- The expression `[]rune(s)[0:1]`: the first character of `s`. For the
empty string the conversion yields a slice of length 0 in its zeroed buffer,
and the slice expression, which stays within the capacity of that buffer,
holds the character U+0000. -/
def firstRune (s : String) : Char :=
  match s.data with
  | c :: _ => c
  | [] => Char.ofNat 0

/-- The block `if len(file.parsedBlocks) > 0 { ... }`: the title, the emoji and
the remaining blocks. -/
def headerTitle (parsedBlocks : List Block) : String × String × List Block :=
  match parsedBlocks with
  | Block.text TextStyle.Header1 text :: rest =>
    match SplitN2 text with
    | [first, second] =>
      if emojiAprox (firstRune first) then (second, first, rest) else (text, "", rest)
    | _ => (text, "", rest)
  | blocks => ("", "", blocks)

/-- How one iteration of the pass ends. -/
inductive NameStep where
  /-- The file is not a page (`continue`). -/
  | skipped
  /-- The file as updated, the request sent to `SetDetails`, and the value of
  the variable `title` that the block `if title == "" { ... }` declares, when
  that block ran. -/
  | named (file : fileInfo) (request : SetDetailsRequest) (blockTitle : Option String)
  deriving DecidableEq, Repr

/-- One iteration of the loop "set documents names" of `ImportMarkdown`, for
the file `file` under the key `name`. `GetRandomString` is
`slice.GetRandomString`. In the block `if title == "" { title := ...; ...;
title = strings.Join(...) }` the short declaration `title :=` declares a new
variable in the scope of the block, and the assignment after it writes that
variable: the `title` of the loop body, which is stored and sent, is not
changed by the block. -/
def setDocumentName (GetRandomString : List String → String → String) (name : String)
    (file : fileInfo) : NameStep :=
  if file.pageID = "" then NameStep.skipped
  else
    match headerTitle file.parsedBlocks with
    | (title, emoji, parsedBlocks) =>
      let emoji1 := if emoji = "" then GetRandomString articleIcons name else emoji
      let blockTitle := if title = "" then some (fileNameTitle name) else none
      NameStep.named
        { file with parsedBlocks := parsedBlocks, title := title }
        { ContextId := file.pageID, Details := [("name", title), ("iconEmoji", emoji1)] }
        blockTitle

/-- A stub of `slice.GetRandomString`: the first string of the list. -/
def firstString (icons : List String) (_seed : String) : String :=
  icons.headD ""

/-- A page created for a file without a Header1 block. -/
def plainPage : fileInfo :=
  { pageID := "page1", parsedBlocks := [Block.text TextStyle.Paragraph "Some text"],
    title := "", isRootFile := true, hasInboundLinks := false }

end Import

namespace Database

/-! ## Properties of the filter compiler -/

theorem MakeFilter_leaf_ok (known : Condition → RelationFormat → Bool) (l : Leaf)
    (h : l.wellFormed known = true) :
    MakeFilter known (FilterRequest.leaf l) = Except.ok (Filter.leaf l) := by
  simp only [Leaf.wellFormed, Bool.and_eq_true, decide_eq_true_eq] at h
  simp [MakeFilter, h.1, h.2]

theorem MakeFilterList_leaves_ok (known : Condition → RelationFormat → Bool)
    (leaves : List Leaf) (h : ∀ l ∈ leaves, l.wellFormed known = true) :
    MakeFilterList known (leaves.map FilterRequest.leaf) = Except.ok (leaves.map Filter.leaf) := by
  induction leaves with
  | nil => simp [MakeFilterList]
  | cons l ls ih =>
    have hl := MakeFilter_leaf_ok known l (h l (List.mem_cons_self l ls))
    have hls := ih (fun x hx => h x (List.mem_cons_of_mem l hx))
    simp only [List.map_cons, MakeFilterList, hl, hls]

theorem MakeFilter_node_leaves_ok (known : Condition → RelationFormat → Bool)
    (op : Operator) (leaves : List Leaf) (hne : leaves ≠ [])
    (h : ∀ l ∈ leaves, l.wellFormed known = true) :
    MakeFilter known (FilterRequest.node op (leaves.map FilterRequest.leaf)) =
      Except.ok (match op with
        | Operator.And => Filter.and (leaves.map Filter.leaf)
        | Operator.Or => Filter.or (leaves.map Filter.leaf)) := by
  cases leaves with
  | nil => exact absurd rfl hne
  | cons l ls =>
    have hall := MakeFilterList_leaves_ok known (l :: ls) h
    simp only [List.map_cons] at hall
    cases op <;> simp only [List.map_cons, MakeFilter, hall]

theorem filter_isCombinator_leaves (leaves : List Leaf) :
    (leaves.map Filter.leaf).filter Filter.isCombinator = [] := by
  induction leaves with
  | nil => rfl
  | cons l ls ih => simp [List.filter, Filter.isCombinator, ih]

theorem filterMap_asLeaf_leaves (leaves : List Leaf) :
    (leaves.map Filter.leaf).filterMap Filter.asLeaf = leaves := by
  induction leaves with
  | nil => rfl
  | cons l ls ih => simp [List.filterMap, Filter.asLeaf, ih]

theorem supersede_none (u : Leaf) (slots : List Slot) (h : noDefaultOn u slots) :
    supersede u slots = none := by
  induction slots with
  | nil => rfl
  | cons s rest ih =>
    have hrest : noDefaultOn u rest := fun x hx => h x (List.mem_cons_of_mem s hx)
    have hs := h s (List.mem_cons_self s rest)
    by_cases hd : s.isDefault = true
    · simp [supersede, hd, hs hd, ih hrest]
    · simp [supersede, hd, ih hrest]

theorem supersede_append (u : Leaf) (a b : List Slot) :
    supersede u (a ++ b) =
      match supersede u a with
      | some a1 => some (a1 ++ b)
      | none =>
        match supersede u b with
        | some b1 => some (a ++ b1)
        | none => none := by
  induction a with
  | nil => simp only [List.nil_append, supersede]; cases supersede u b <;> rfl
  | cons s rest ih =>
    simp only [List.cons_append, supersede]
    split
    · rfl
    · have ih1 : supersede u (rest.append b) = _ := ih
      rw [ih1]
      cases supersede u rest <;> cases supersede u b <;> rfl

theorem noDefaultOn_userSlots (u : Leaf) (leaves : List Leaf) :
    noDefaultOn u (userSlots leaves) := by
  intro s hs hd
  simp only [userSlots, List.mem_map] at hs
  obtain ⟨l, _, rfl⟩ := hs
  simp at hd

theorem foldl_place_append (leaves : List Leaf) (slots : List Slot)
    (h : ∀ l ∈ leaves, noDefaultOn l slots) :
    leaves.foldl place slots = slots ++ userSlots leaves := by
  induction leaves generalizing slots with
  | nil => simp [userSlots]
  | cons l ls ih =>
    have hl := supersede_none l slots (h l (List.mem_cons_self l ls))
    have hstep : place slots l = slots ++ [{ leaf := l, isDefault := false }] := by
      simp [place, hl]
    simp only [List.foldl_cons, hstep]
    rw [ih]
    · simp [userSlots]
    · intro x hx s hs hd
      rcases List.mem_append.mp hs with hs1 | hs1
      · exact h x (List.mem_cons_of_mem l hx) s hs1 hd
      · simp only [List.mem_singleton] at hs1
        subst hs1
        simp at hd

theorem noDefaultOn_defaultSlots (u : Leaf) (defaults : List Leaf)
    (h : ∀ d ∈ defaults, u.relationKey ≠ d.relationKey) :
    noDefaultOn u (defaultSlots defaults) := by
  intro s hs _
  simp only [defaultSlots, List.mem_map] at hs
  obtain ⟨d, hd, rfl⟩ := hs
  exact fun heq => h d hd heq.symm

theorem supersede_defaultSlots (u : Leaf) (defaults : List Leaf)
    (hu : u.relationKey ∈ defaults.map Leaf.relationKey) :
    ∃ A d B, defaults = A ++ d :: B ∧ d.relationKey = u.relationKey ∧
      (∀ a ∈ A, a.relationKey ≠ u.relationKey) ∧
      supersede u (defaultSlots defaults) =
        some (defaultSlots A ++ { leaf := u, isDefault := false } :: defaultSlots B) := by
  induction defaults with
  | nil => simp at hu
  | cons d ds ih =>
    by_cases hk : d.relationKey = u.relationKey
    · exact ⟨[], d, ds, rfl, hk, by simp, by simp [defaultSlots, supersede, hk]⟩
    · have hu1 : u.relationKey ∈ ds.map Leaf.relationKey := by
        simp only [List.map_cons, List.mem_cons] at hu
        rcases hu with h | h
        · exact absurd h.symm hk
        · exact h
      obtain ⟨A, d1, B, hds, hd1, hA, hsup⟩ := ih hu1
      refine ⟨d :: A, d1, B, by simp [hds], hd1, ?_, ?_⟩
      · intro a ha
        rcases List.mem_cons.mp ha with h | h
        · subst h; exact hk
        · exact hA a h
      · simp only [defaultSlots] at hsup
        simp [defaultSlots, supersede, hk, hsup]

theorem replaceKey_of_ne (u : Leaf) (ds : List Leaf)
    (h : ∀ d ∈ ds, d.relationKey ≠ u.relationKey) : replaceKey u ds = ds := by
  induction ds with
  | nil => rfl
  | cons d rest ih =>
    have hd := h d (List.mem_cons_self d rest)
    have hrest := ih (fun x hx => h x (List.mem_cons_of_mem d hx))
    simp only [replaceKey, List.map_cons, hd, if_false] at hrest ⊢
    rw [hrest]

theorem reconcile_supersede (defaults pre post : List Leaf) (u : Leaf)
    (hnodup : (defaults.map Leaf.relationKey).Nodup)
    (hu : u.relationKey ∈ defaults.map Leaf.relationKey)
    (hother : ∀ l ∈ pre ++ post, l.relationKey ∉ defaults.map Leaf.relationKey) :
    reconcile defaults (pre ++ u :: post) = replaceKey u defaults ++ (pre ++ post) := by
  have hkey : ∀ l ∈ pre ++ post, ∀ d ∈ defaults, l.relationKey ≠ d.relationKey :=
    fun l hl d hd heq => hother l hl (heq ▸ List.mem_map_of_mem Leaf.relationKey hd)
  obtain ⟨A, d, B, hdef, hd, hA, hsup⟩ := supersede_defaultSlots u defaults hu
  -- the leaves before `u` are appended
  have hpre : pre.foldl place (defaultSlots defaults) = defaultSlots defaults ++ userSlots pre :=
    foldl_place_append pre _ (fun l hl =>
      noDefaultOn_defaultSlots l defaults (hkey l (List.mem_append_left post hl)))
  -- `u` takes the slot of the default leaf on its key
  have hplace : place (defaultSlots defaults ++ userSlots pre) u =
      (defaultSlots A ++ { leaf := u, isDefault := false } :: defaultSlots B) ++ userSlots pre := by
    simp only [place, supersede_append, hsup]
  -- the leaves after `u` are appended
  have hpost : post.foldl place
      ((defaultSlots A ++ { leaf := u, isDefault := false } :: defaultSlots B) ++ userSlots pre) =
      ((defaultSlots A ++ { leaf := u, isDefault := false } :: defaultSlots B) ++ userSlots pre)
        ++ userSlots post := by
    apply foldl_place_append
    intro l hl s hs hdflt
    have hlk := hkey l (List.mem_append_right pre hl)
    simp only [List.mem_append, List.mem_cons] at hs
    rcases hs with (hs | hs | hs) | hs
    · refine noDefaultOn_defaultSlots l A (fun a ha => hlk a ?_) s hs hdflt
      rw [hdef]; exact List.mem_append_left _ ha
    · subst hs; simp at hdflt
    · refine noDefaultOn_defaultSlots l B (fun b hb => hlk b ?_) s hs hdflt
      rw [hdef]; exact List.mem_append_right _ (List.mem_cons_of_mem d hb)
    · exact noDefaultOn_userSlots l pre s hs hdflt
  -- the keys of the default set are pairwise distinct
  have hB : ∀ b ∈ B, b.relationKey ≠ u.relationKey := by
    intro b hb heq
    rw [hdef] at hnodup
    simp only [List.map_append, List.map_cons] at hnodup
    have h2 := (List.nodup_append.mp hnodup).2.1
    have h3 := (List.nodup_cons.mp h2).1
    exact h3 (by rw [hd, ← heq]; exact List.mem_map_of_mem Leaf.relationKey hb)
  have hrep : replaceKey u defaults = A ++ u :: B := by
    have hAB : replaceKey u (A ++ d :: B) = replaceKey u A ++ u :: replaceKey u B := by
      simp [replaceKey, hd]
    rw [hdef, hAB, replaceKey_of_ne u A hA, replaceKey_of_ne u B hB]
  have hslots : ∀ ls : List Leaf, (defaultSlots ls).map Slot.leaf = ls := by
    intro ls; simp [defaultSlots, Function.comp_def]
  have huser : ∀ ls : List Leaf, (userSlots ls).map Slot.leaf = ls := by
    intro ls; simp [userSlots, Function.comp_def]
  have hfold : (pre ++ u :: post).foldl place (defaultSlots defaults) =
      ((defaultSlots A ++ { leaf := u, isDefault := false } :: defaultSlots B) ++ userSlots pre)
        ++ userSlots post := by
    rw [List.foldl_append, List.foldl_cons, hpre, hplace, hpost]
  have hfold1 : (pre ++ u :: post).foldl place
      (defaults.map fun d => ({ leaf := d, isDefault := true } : Slot)) = _ := hfold
  simp only [reconcile, hfold1, List.map_append, List.map_cons, hslots, huser, hrep,
    List.append_assoc]

theorem MakeFilter_node_cons (known : Condition → RelationFormat → Bool) (op : Operator)
    (f : FilterRequest) (rest : List FilterRequest) :
    MakeFilter known (FilterRequest.node op (f :: rest)) =
      match MakeFilterList known (f :: rest) with
      | Except.error e => Except.error e
      | Except.ok cs =>
        match op with
        | Operator.And => Except.ok (Filter.and cs)
        | Operator.Or => Except.ok (Filter.or cs) := by
  rw [MakeFilter]

theorem MakeFilterList_single (known : Condition → RelationFormat → Bool) (f : FilterRequest) :
    MakeFilterList known [f] =
      match MakeFilter known f with
      | Except.error e => Except.error e
      | Except.ok c => Except.ok [c] := by
  rw [MakeFilterList, MakeFilterList]

theorem MakeFilter_leaf_error (known : Condition → RelationFormat → Bool) (l : Leaf)
    (h : l.wellFormed known = false) :
    ∃ e, MakeFilter known (FilterRequest.leaf l) = Except.error e := by
  by_cases hk : l.relationKey = ""
  · exact ⟨CompilationError.missingRelationKey, by simp [MakeFilter, hk]⟩
  · have hknown : known l.condition l.format = false := by
      simpa [Leaf.wellFormed, hk] using h
    exact ⟨CompilationError.unknownPairing l.condition l.format,
      by simp [MakeFilter, hk, hknown]⟩

theorem MakeFilterList_leaves_inv (known : Condition → RelationFormat → Bool)
    (leaves : List Leaf) (cs : List Filter)
    (h : MakeFilterList known (leaves.map FilterRequest.leaf) = Except.ok cs) :
    ∀ l ∈ leaves, l.wellFormed known = true := by
  induction leaves generalizing cs with
  | nil => intro l hl; cases hl
  | cons x rest ih =>
    simp only [List.map_cons, MakeFilterList] at h
    cases hx : x.wellFormed known with
    | false =>
      obtain ⟨e, he⟩ := MakeFilter_leaf_error known x hx
      simp [he] at h
    | true =>
      rw [MakeFilter_leaf_ok known x hx] at h
      cases hrest : MakeFilterList known (rest.map FilterRequest.leaf) with
      | error e => simp [hrest] at h
      | ok cs1 =>
        intro l hl
        rcases List.mem_cons.mp hl with hl1 | hl1
        · subst hl1; exact hx
        · exact ih cs1 hrest l hl1

theorem NewFilters_single_node_inv (known : Condition → RelationFormat → Bool)
    (defaults : List Leaf) (query : Query) (op : Operator) (leaves : List Leaf) (fs : Filters)
    (hq : query.Filters = [FilterRequest.node op (leaves.map FilterRequest.leaf)])
    (h : NewFilters known defaults query = Except.ok fs) :
    leaves ≠ [] ∧ ∀ l ∈ leaves, l.wellFormed known = true := by
  cases leaves with
  | nil => simp [NewFilters, hq, MakeFilterList, MakeFilter] at h
  | cons x rest =>
    refine ⟨by simp, ?_⟩
    cases hcs : MakeFilterList known ((x :: rest).map FilterRequest.leaf) with
    | error e =>
      simp only [List.map_cons] at hcs
      simp [NewFilters, hq, MakeFilterList_single, MakeFilter_node_cons, hcs] at h
    | ok cs => exact MakeFilterList_leaves_inv known (x :: rest) cs hcs

theorem NewFilters_single_and_ok (known : Condition → RelationFormat → Bool)
    (defaults : List Leaf) (query : Query) (leaves : List Leaf)
    (hq : query.Filters = [FilterRequest.node Operator.And (leaves.map FilterRequest.leaf)])
    (hne : leaves ≠ []) (hwf : ∀ l ∈ leaves, l.wellFormed known = true) :
    NewFilters known defaults query =
      Except.ok { FilterObj := Filter.and ((reconcile defaults leaves).map Filter.leaf)
                  Order := extractOrder query.Sorts } := by
  have hnode := MakeFilter_node_leaves_ok known Operator.And leaves hne hwf
  simp only [NewFilters, hq, MakeFilterList, hnode, topLevel, mergeDefaults,
    filter_isCombinator_leaves, filterMap_asLeaf_leaves, List.nil_append]

/-- C1: for a query with no user filters `NewFilters` succeeds and the compiled
predicate tree is the AND of the default predicates, three elements for a
default set of three. -/
theorem NewFilters_only_default_filters (known : Condition → RelationFormat → Bool)
    (defaults : List Leaf) (query : Query)
    (hq : query.Filters = []) (hd : defaults.length = 3) :
    ∃ fs, NewFilters known defaults query = Except.ok fs ∧
      fs.FilterObj = Filter.and (defaults.map Filter.leaf) ∧ fs.FilterObj.len = 3 := by
  refine ⟨{ FilterObj := Filter.and (defaults.map Filter.leaf),
            Order := extractOrder query.Sorts }, ?_, rfl, ?_⟩
  · simp [NewFilters, hq, MakeFilterList, topLevel, mergeDefaults, reconcile]
  · simp [Filter.len, Filter.children, hd]

/-- The test "only default filters": the empty query over the reference
default set compiles to the three default predicates. -/
theorem NewFilters_only_default_filters_witness :
    ({} : Query).Filters = [] ∧ defaultFilters.length = 3 ∧
    ∃ fs, NewFilters allKnown defaultFilters {} = Except.ok fs ∧
      fs.FilterObj = Filter.and (defaultFilters.map Filter.leaf) ∧ fs.FilterObj.len = 3 :=
  ⟨rfl, rfl, NewFilters_only_default_filters allKnown defaultFilters {} rfl rfl⟩

theorem leaf_key_beq (l : Leaf) (k : String) :
    ((Filter.leaf l).key? == some k) = decide (l.relationKey = k) := by
  by_cases h : l.relationKey = k <;> simp [Filter.key?, h]

theorem filter_key_of_ne (k : String) (ls : List Leaf)
    (h : ∀ l ∈ ls, l.relationKey ≠ k) :
    (ls.map Filter.leaf).filter (fun c => c.key? == some k) = [] := by
  induction ls with
  | nil => rfl
  | cons l rest ih =>
    have hl := h l (List.mem_cons_self l rest)
    have hrest := ih (fun x hx => h x (List.mem_cons_of_mem l hx))
    rw [List.map_cons, List.filter_cons_of_neg (by rw [leaf_key_beq]; simpa using hl)]
    exact hrest

theorem filter_key_replaceKey (u : Leaf) (defaults : List Leaf)
    (hnodup : (defaults.map Leaf.relationKey).Nodup)
    (hu : u.relationKey ∈ defaults.map Leaf.relationKey) :
    ((replaceKey u defaults).map Filter.leaf).filter (fun c => c.key? == some u.relationKey) =
      [Filter.leaf u] := by
  induction defaults with
  | nil => simp at hu
  | cons d ds ih =>
    simp only [List.map_cons, List.nodup_cons] at hnodup
    have hcons : replaceKey u (d :: ds) =
        (if d.relationKey = u.relationKey then u else d) :: replaceKey u ds := rfl
    by_cases hk : d.relationKey = u.relationKey
    · have hds : ∀ x ∈ ds, x.relationKey ≠ u.relationKey := by
        intro x hx heq
        exact hnodup.1 (by rw [hk, ← heq]; exact List.mem_map_of_mem Leaf.relationKey hx)
      rw [hcons, if_pos hk, replaceKey_of_ne u ds hds, List.map_cons,
        List.filter_cons_of_pos (by rw [leaf_key_beq]; simp),
        filter_key_of_ne u.relationKey ds hds]
    · have hu1 : u.relationKey ∈ ds.map Leaf.relationKey := by
        simp only [List.map_cons, List.mem_cons] at hu
        rcases hu with h | h
        · exact absurd h.symm hk
        · exact h
      rw [hcons, if_neg hk, List.map_cons,
        List.filter_cons_of_neg (by rw [leaf_key_beq]; simpa using hk)]
      exact ih hnodup.2 hu1

/-- C3: for every query whose filters are a single AND node of N leaves,
exactly one of which (`u`) is keyed by the relation key of a default predicate,
the compiled top-level `FiltersAnd` has exactly 3 + (N - 1) elements: `u`
stands in the slot of the default on its key, the other leaves are appended,
and exactly one element, `u`, tests that key. This holds of every tree
`NewFilters` returns for such a query, and it returns one whenever the leaves
are well-formed. -/
theorem NewFilters_and_leaves_superseding (known : Condition → RelationFormat → Bool)
    (defaults : List Leaf) (query : Query) (before after : List Leaf) (u : Leaf)
    (hd : defaults.length = 3)
    (hnodup : (defaults.map Leaf.relationKey).Nodup)
    (hq : query.Filters =
      [FilterRequest.node Operator.And ((before ++ u :: after).map FilterRequest.leaf)])
    (hu : u.relationKey ∈ defaults.map Leaf.relationKey)
    (hother : ∀ l ∈ before ++ after, l.relationKey ∉ defaults.map Leaf.relationKey) :
    (∀ fs, NewFilters known defaults query = Except.ok fs →
      fs.FilterObj = Filter.and ((replaceKey u defaults ++ (before ++ after)).map Filter.leaf) ∧
      fs.FilterObj.len = 3 + ((before ++ u :: after).length - 1) ∧
      fs.FilterObj.children.filter (fun c => c.key? == some u.relationKey) =
        [Filter.leaf u]) ∧
    ((∀ l ∈ before ++ u :: after, l.wellFormed known = true) →
      ∃ fs, NewFilters known defaults query = Except.ok fs) := by
  have hrec := reconcile_supersede defaults before after u hnodup hu hother
  constructor
  · intro fs hfs
    have hwf := (NewFilters_single_node_inv known defaults query Operator.And
      (before ++ u :: after) fs hq hfs).2
    rw [NewFilters_single_and_ok known defaults query (before ++ u :: after) hq (by simp) hwf,
      Except.ok.injEq] at hfs
    subst hfs
    refine ⟨?_, ?_, ?_⟩
    · simp only [hrec]
    · simp only [Filter.len, Filter.children, hrec, List.length_map, List.length_append,
        replaceKey, hd, List.length_cons]
      omega
    · have hrest : ((before ++ after).map Filter.leaf).filter
          (fun c => c.key? == some u.relationKey) = [] :=
        filter_key_of_ne u.relationKey (before ++ after)
          (fun l hl heq => hother l hl (heq ▸ hu))
      simp only [Filter.children, hrec, List.map_append, List.filter_append,
        filter_key_replaceKey u defaults hnodup hu]
      simp only [List.map_append, List.filter_append] at hrest
      rw [hrest]
      rfl
  · intro hwf
    exact ⟨_, NewFilters_single_and_ok known defaults query (before ++ u :: after) hq
      (by simp) hwf⟩

/-- The tests "deleted filter" and "archived filter": a third leaf on
`isDeleted` (on `isArchived`) compiles to five elements, the user leaf in the
slot of the default and the only element on its key. -/
theorem NewFilters_and_leaves_superseding_witness :
    (∃ fs, NewFilters allKnown defaultFilters
        { Filters := [FilterRequest.node Operator.And
            (([leafRelationKey, leafName] ++ leafIsDeleted :: []).map FilterRequest.leaf)] } =
          Except.ok fs ∧
      fs.FilterObj = Filter.and
        ((replaceKey leafIsDeleted defaultFilters ++ ([leafRelationKey, leafName] ++ [])).map
          Filter.leaf) ∧
      fs.FilterObj.len = 3 + (([leafRelationKey, leafName] ++ leafIsDeleted :: []).length - 1) ∧
      fs.FilterObj.children.filter (fun c => c.key? == some leafIsDeleted.relationKey) =
        [Filter.leaf leafIsDeleted]) ∧
    (∃ fs, NewFilters allKnown defaultFilters
        { Filters := [FilterRequest.node Operator.And
            (([leafRelationKey, leafName] ++ leafIsArchived :: []).map FilterRequest.leaf)] } =
          Except.ok fs ∧
      fs.FilterObj = Filter.and
        ((replaceKey leafIsArchived defaultFilters ++ ([leafRelationKey, leafName] ++ [])).map
          Filter.leaf) ∧
      fs.FilterObj.len = 3 + (([leafRelationKey, leafName] ++ leafIsArchived :: []).length - 1) ∧
      fs.FilterObj.children.filter (fun c => c.key? == some leafIsArchived.relationKey) =
        [Filter.leaf leafIsArchived]) :=
  ⟨⟨_, rfl, (NewFilters_and_leaves_superseding allKnown defaultFilters
      { Filters := [FilterRequest.node Operator.And
          (([leafRelationKey, leafName] ++ leafIsDeleted :: []).map FilterRequest.leaf)] }
      [leafRelationKey, leafName] [] leafIsDeleted rfl (by decide) rfl (by decide)
      (by decide)).1 _ rfl⟩,
   ⟨_, rfl, (NewFilters_and_leaves_superseding allKnown defaultFilters
      { Filters := [FilterRequest.node Operator.And
          (([leafRelationKey, leafName] ++ leafIsArchived :: []).map FilterRequest.leaf)] }
      [leafRelationKey, leafName] [] leafIsArchived rfl (by decide) rfl (by decide)
      (by decide)).1 _ rfl⟩⟩

theorem NewFilters_single_or_ok (known : Condition → RelationFormat → Bool)
    (defaults : List Leaf) (query : Query) (leaves : List Leaf)
    (hq : query.Filters = [FilterRequest.node Operator.Or (leaves.map FilterRequest.leaf)])
    (hne : leaves ≠ []) (hwf : ∀ l ∈ leaves, l.wellFormed known = true) :
    NewFilters known defaults query =
      Except.ok { FilterObj := Filter.and (mergeDefaults defaults
                    [Filter.or (leaves.map Filter.leaf)])
                  Order := extractOrder query.Sorts } := by
  have hnode := MakeFilter_node_leaves_ok known Operator.Or leaves hne hwf
  simp [NewFilters, hq, MakeFilterList, hnode, topLevel]

theorem mergeDefaults_single_or (defaults : List Leaf) (cs : List Filter) :
    (mergeDefaults defaults [Filter.or cs]).length = defaults.length + 1 ∧
    (mergeDefaults defaults [Filter.or cs]).filter Filter.isCombinator = [Filter.or cs] ∧
    (mergeDefaults defaults [Filter.or cs]).filterMap Filter.asLeaf = defaults := by
  have hleaf : (defaults.map Filter.leaf).filter Filter.isCombinator = [] :=
    filter_isCombinator_leaves defaults
  have hmerge : mergeDefaults defaults [Filter.or cs] =
      Filter.or cs :: defaults.map Filter.leaf := by
    simp [mergeDefaults, reconcile, Filter.isCombinator, Filter.asLeaf, Function.comp_def]
  rw [hmerge]
  refine ⟨by simp, ?_, ?_⟩
  · rw [List.filter_cons_of_pos (by simp [Filter.isCombinator]), hleaf]
  · rw [List.filterMap_cons_none (by simp [Filter.asLeaf])]
    exact filterMap_asLeaf_leaves defaults

/-- C4: for every query whose only top-level filter is an OR node with k leaf
children, the compiled top-level `FiltersAnd` has exactly 3 + 1 elements: the
OR subtree is not flattened, it is the one combinator among the elements
whatever k is, the other elements are the three default predicates, and the
compiled `FiltersOr` has exactly k children. This holds of every tree
`NewFilters` returns for such a query, and it returns one whenever the OR node
has children and they are well-formed. -/
theorem NewFilters_or_one_slot (known : Condition → RelationFormat → Bool)
    (defaults : List Leaf) (query : Query) (leaves : List Leaf)
    (hd : defaults.length = 3)
    (hq : query.Filters = [FilterRequest.node Operator.Or (leaves.map FilterRequest.leaf)]) :
    (∀ fs, NewFilters known defaults query = Except.ok fs →
      ∃ cs children, fs.FilterObj = Filter.and cs ∧
        cs.length = 3 + 1 ∧
        cs.filter Filter.isCombinator = [Filter.or children] ∧
        cs.filterMap Filter.asLeaf = defaults ∧
        children = leaves.map Filter.leaf ∧
        (Filter.or children).len = leaves.length) ∧
    (leaves ≠ [] → (∀ l ∈ leaves, l.wellFormed known = true) →
      ∃ fs, NewFilters known defaults query = Except.ok fs) := by
  constructor
  · intro fs hfs
    obtain ⟨hne, hwf⟩ := NewFilters_single_node_inv known defaults query Operator.Or
      leaves fs hq hfs
    rw [NewFilters_single_or_ok known defaults query leaves hq hne hwf,
      Except.ok.injEq] at hfs
    subst hfs
    obtain ⟨hlen, hcomb, hleaves⟩ := mergeDefaults_single_or defaults (leaves.map Filter.leaf)
    exact ⟨_, _, rfl, by rw [hlen, hd], hcomb, hleaves, rfl,
      by simp [Filter.len, Filter.children]⟩
  · intro hne hwf
    exact ⟨_, NewFilters_single_or_ok known defaults query leaves hq hne hwf⟩

/-- The test "or filter with 3 default": a top-level OR of the two base leaves
compiles to four elements, the OR node the one combinator among them, with two
children. -/
theorem NewFilters_or_one_slot_witness :
    ∃ fs cs children, NewFilters allKnown defaultFilters
        { Filters := [FilterRequest.node Operator.Or
            ([leafRelationKey, leafName].map FilterRequest.leaf)] } = Except.ok fs ∧
      fs.FilterObj = Filter.and cs ∧
      cs.length = 3 + 1 ∧
      cs.filter Filter.isCombinator = [Filter.or children] ∧
      cs.filterMap Filter.asLeaf = defaultFilters ∧
      children = [leafRelationKey, leafName].map Filter.leaf ∧
      (Filter.or children).len = [leafRelationKey, leafName].length :=
  have h := NewFilters_or_one_slot allKnown defaultFilters
    { Filters := [FilterRequest.node Operator.Or
        ([leafRelationKey, leafName].map FilterRequest.leaf)] }
    [leafRelationKey, leafName] rfl rfl
  let ⟨cs, children, hcs⟩ := h.1 _ rfl
  ⟨_, cs, children, rfl, hcs⟩

/-! ## Properties of the order extractor -/

theorem extractOrder_getElem? (sorts : List SortRequest) (i : Nat) (s : SortRequest)
    (h : sorts[i]? = some s) :
    (extractOrder sorts)[i]? = some (Order.keyOrder
      { Key := s.RelationKey
        Direction := s.Direction
        IncludeTime := isIncludeTime sorts s
        collation := if isTextFormat s.Format then some Collation.localeAware else none }) := by
  simp [extractOrder, List.getElem?_map, h]

/-- C5: for every sort list with exactly one entry whose format is date,
`extractOrder` returns an order whose first element is a `KeyOrder` with
`IncludeTime = true`, whether or not the entry sets `IncludeTime`. -/
theorem extractOrder_single_date (sorts : List SortRequest) (s : SortRequest)
    (hone : sorts = [s]) (hdate : s.Format = RelationFormat.date) :
    ∃ k, (extractOrder sorts)[0]? = some (Order.keyOrder k) ∧ k.IncludeTime = true := by
  subst hone
  exact ⟨_, extractOrder_getElem? [s] 0 s rfl, by simp [isIncludeTime, hdate]⟩

/-- The test `testIncludeTimeWhenSingleDateSort`. -/
theorem extractOrder_single_date_witness :
    ∃ k, (extractOrder givenSingleDateSort)[0]? = some (Order.keyOrder k) ∧
      k.IncludeTime = true :=
  extractOrder_single_date givenSingleDateSort { Format := RelationFormat.date } rfl rfl

/-- C6: for every sort list and every entry of it that sets `IncludeTime =
true`, the `KeyOrder` extracted for that entry (same position, same key) has
`IncludeTime = true`, whatever the entry's format, its position and the number
of entries. -/
theorem extractOrder_explicit_includeTime (sorts : List SortRequest) (i : Nat)
    (s : SortRequest) (hi : sorts[i]? = some s) (hflag : s.IncludeTime = true) :
    ∃ k, (extractOrder sorts)[i]? = some (Order.keyOrder k) ∧
      k.Key = s.RelationKey ∧ k.IncludeTime = true := by
  exact ⟨_, extractOrder_getElem? sorts i s hi, rfl, by simp [isIncludeTime, hflag]⟩

/-- The test `testIncludeTimeWhenSortContainsIncludeTime`. -/
theorem extractOrder_explicit_includeTime_witness :
    ∃ k, (extractOrder givenSingleIncludeTime)[0]? = some (Order.keyOrder k) ∧
      k.Key = "" ∧ k.IncludeTime = true :=
  extractOrder_explicit_includeTime givenSingleIncludeTime 0
    { Format := RelationFormat.shorttext, IncludeTime := true } rfl rfl

/-- C7: for every sort list with two or more entries, every entry that does
not set `IncludeTime` yields a `KeyOrder` with `IncludeTime = false`, also when
the entry's format is date. -/
theorem extractOrder_not_single (sorts : List SortRequest) (i : Nat) (s : SortRequest)
    (hlen : 2 ≤ sorts.length) (hi : sorts[i]? = some s) (hflag : s.IncludeTime = false) :
    ∃ k, (extractOrder sorts)[i]? = some (Order.keyOrder k) ∧
      k.Key = s.RelationKey ∧ k.IncludeTime = false := by
  refine ⟨_, extractOrder_getElem? sorts i s hi, rfl, ?_⟩
  have hne : sorts.length ≠ 1 := by omega
  simp [isIncludeTime, hflag, hne]

/-- The test `testDoNotIncludeTimeWhenNotSingleSort`: the date entry that
comes first of two. -/
theorem extractOrder_not_single_witness :
    ∃ k, (extractOrder givenNotSingleDateSort)[0]? = some (Order.keyOrder k) ∧
      k.Key = "" ∧ k.IncludeTime = false :=
  extractOrder_not_single givenNotSingleDateSort 0 { Format := RelationFormat.date }
    (by decide) rfl rfl

/-- C8: for every sort list with exactly one entry whose format is not date
and which does not set `IncludeTime`, `extractOrder` returns an order whose
first element is a `KeyOrder` with `IncludeTime = false`. -/
theorem extractOrder_single_not_date (sorts : List SortRequest) (s : SortRequest)
    (hone : sorts = [s]) (hdate : s.Format ≠ RelationFormat.date)
    (hflag : s.IncludeTime = false) :
    ∃ k, (extractOrder sorts)[0]? = some (Order.keyOrder k) ∧ k.IncludeTime = false := by
  subst hone
  exact ⟨_, extractOrder_getElem? [s] 0 s rfl, by simp [isIncludeTime, hdate, hflag]⟩

/-- The test `testDoNotIncludeTimeWhenSingleNotDateSort`. -/
theorem extractOrder_single_not_date_witness :
    ∃ k, (extractOrder givenSingleNotDateSort)[0]? = some (Order.keyOrder k) ∧
      k.IncludeTime = false :=
  extractOrder_single_not_date givenSingleNotDateSort { Format := RelationFormat.shorttext }
    rfl (by decide) rfl

/-! ## Malformed requests -/

mutual
theorem MakeFilter_malformed (known : Condition → RelationFormat → Bool) :
    ∀ f : FilterRequest, f.malformed known = true → ∃ e, MakeFilter known f = Except.error e
  | FilterRequest.leaf l, h => by
    simp only [FilterRequest.malformed, Bool.or_eq_true, decide_eq_true_eq,
      Bool.not_eq_true'] at h
    by_cases hk : l.relationKey = ""
    · exact ⟨CompilationError.missingRelationKey, by simp [MakeFilter, hk]⟩
    · rcases h with h | h
      · exact absurd h hk
      · exact ⟨CompilationError.unknownPairing l.condition l.format,
          by simp [MakeFilter, hk, h]⟩
  | FilterRequest.node op [], _ =>
    ⟨CompilationError.emptyNestedFilters, by simp [MakeFilter]⟩
  | FilterRequest.node op (f :: fs), h => by
    have hlist : FilterRequest.anyMalformed known (f :: fs) = true := by
      simpa [FilterRequest.malformed] using h
    obtain ⟨e, he⟩ := MakeFilterList_malformed known (f :: fs) hlist
    exact ⟨e, by simp [MakeFilter, he]⟩
theorem MakeFilterList_malformed (known : Condition → RelationFormat → Bool) :
    ∀ fs : List FilterRequest, FilterRequest.anyMalformed known fs = true →
      ∃ e, MakeFilterList known fs = Except.error e
  | [], h => by simp [FilterRequest.anyMalformed] at h
  | f :: fs, h => by
    simp only [FilterRequest.anyMalformed, Bool.or_eq_true] at h
    cases hf : MakeFilter known f with
    | error e => exact ⟨e, by simp [MakeFilterList, hf]⟩
    | ok c =>
      rcases h with h | h
      · obtain ⟨e, he⟩ := MakeFilter_malformed known f h
        rw [he] at hf
        cases hf
      · obtain ⟨e, he⟩ := MakeFilterList_malformed known fs h
        exact ⟨e, by simp [MakeFilterList, hf, he]⟩
end

/-- C14: for every filter request tree that contains a leaf without a relation
key, a combinator node with an empty list of nested filters or an unknown
condition/format pairing, filter compilation (`NewFilters`, and the walk
`MakeFilterList` it starts with) returns an error and no compiled tree. -/
theorem NewFilters_malformed_error (known : Condition → RelationFormat → Bool)
    (defaults : List Leaf) (query : Query)
    (h : FilterRequest.anyMalformed known query.Filters = true) :
    (∃ e, NewFilters known defaults query = Except.error e) ∧
    (∃ e, MakeFilterList known query.Filters = Except.error e) := by
  obtain ⟨e, he⟩ := MakeFilterList_malformed known query.Filters h
  exact ⟨⟨e, by simp [NewFilters, he]⟩, ⟨e, he⟩⟩

/-- Three malformed requests next to a well-formed leaf: a leaf without
relation key nested in an OR, an AND node without nested filters, and, for a
compiler that knows no pairing, any leaf. -/
theorem NewFilters_malformed_error_witness :
    ((∃ e, NewFilters allKnown defaultFilters
        { Filters := [FilterRequest.leaf leafName,
            FilterRequest.node Operator.Or
              [FilterRequest.leaf leafRelationKey, FilterRequest.leaf leafNoKey]] } =
          Except.error e) ∧
      (∃ e, MakeFilterList allKnown
          [FilterRequest.leaf leafName,
            FilterRequest.node Operator.Or
              [FilterRequest.leaf leafRelationKey, FilterRequest.leaf leafNoKey]] =
          Except.error e)) ∧
    ((∃ e, NewFilters allKnown defaultFilters
        { Filters := [FilterRequest.leaf leafName, FilterRequest.node Operator.And []] } =
          Except.error e) ∧
      (∃ e, MakeFilterList allKnown
          [FilterRequest.leaf leafName, FilterRequest.node Operator.And []] =
          Except.error e)) ∧
    ((∃ e, NewFilters noneKnown defaultFilters { Filters := [FilterRequest.leaf leafName] } =
          Except.error e) ∧
      (∃ e, MakeFilterList noneKnown [FilterRequest.leaf leafName] = Except.error e)) :=
  ⟨NewFilters_malformed_error allKnown defaultFilters _ rfl,
   NewFilters_malformed_error allKnown defaultFilters _ rfl,
   NewFilters_malformed_error noneKnown defaultFilters _ rfl⟩

end Database

namespace Export

open Database

/-! ## Properties of the batched identifier lookup -/

theorem batchesFuel_flatMap (size : Nat) (hsize : 0 < size) (fuel : Nat) (ids : List String)
    (hfuel : ids.length ≤ fuel) :
    (batchesFuel size fuel ids).flatMap (fun b => b) = ids := by
  induction fuel generalizing ids with
  | zero =>
    have hnil : ids = [] := List.length_eq_zero.mp (Nat.le_zero.mp hfuel)
    subst hnil
    rfl
  | succ fuel ih =>
    cases ids with
    | nil => rfl
    | cons id rest =>
      have hdrop : ((id :: rest).drop size).length ≤ fuel := by
        rw [List.length_drop]
        simp only [List.length_cons] at hfuel ⊢
        omega
      simp only [batchesFuel, List.flatMap_cons, ih _ hdrop, List.take_append_drop]

theorem batchesFuel_sublist (size fuel : Nat) (ids : List String) :
    ∀ b ∈ batchesFuel size fuel ids, b.Sublist ids := by
  induction fuel generalizing ids with
  | zero => intro b hb; simp [batchesFuel] at hb
  | succ fuel ih =>
    cases ids with
    | nil => intro b hb; simp [batchesFuel] at hb
    | cons id rest =>
      intro b hb
      simp only [batchesFuel, List.mem_cons] at hb
      rcases hb with hb | hb
      · subst hb; exact List.take_sublist _ _
      · exact (ih _ b hb).trans (List.drop_sublist _ _)

theorem batchesFuel_length_le (size fuel : Nat) (ids : List String) :
    ∀ b ∈ batchesFuel size fuel ids, b.length ≤ size := by
  induction fuel generalizing ids with
  | zero => intro b hb; simp [batchesFuel] at hb
  | succ fuel ih =>
    cases ids with
    | nil => intro b hb; simp [batchesFuel] at hb
    | cons id rest =>
      intro b hb
      simp only [batchesFuel, List.mem_cons] at hb
      rcases hb with hb | hb
      · subst hb; rw [List.length_take]; exact Nat.min_le_left _ _
      · exact ih _ b hb

theorem matchesIn_id (batch : List String) (r : Record)
    (h : matchesIn RelationKeyId batch r = true) : ∃ s, r.id = some s ∧ s ∈ batch := by
  unfold matchesIn at h
  unfold Record.id
  split at h
  · rename_i s hs
    exact ⟨s, rfl, by simpa using h⟩
  · exact absurd h (by simp)

theorem matchesIn_of_id (batch : List String) (r : Record) (s : String)
    (hid : r.id = some s) (hs : s ∈ batch) : matchesIn RelationKeyId batch r = true := by
  unfold Record.id at hid
  unfold matchesIn
  split at hid
  · simp only [Option.some.injEq] at hid
    subst hid
    simpa using hs
  · exact absurd hid (by simp)

theorem map_id_eq_filterMap (rs : List Record) (h : ∀ r ∈ rs, ∃ s, r.id = some s) :
    rs.map Record.id = (rs.filterMap Record.id).map some := by
  induction rs with
  | nil => rfl
  | cons r rest ih =>
    obtain ⟨s, hs⟩ := h r (List.mem_cons_self r rest)
    have hrest := ih (fun x hx => h x (List.mem_cons_of_mem r hx))
    simp [List.filterMap_cons, hs, hrest]

theorem queryObjectsByRelation_perm (index : SpaceIndex) (passes : Record → Bool)
    (batch : List String) (hnodup : batch.Nodup)
    (hexist : ∀ id ∈ batch, ∃ r ∈ index.records, r.id = some id ∧ passes r = true) :
    ((queryObjectsByRelation index passes batch RelationKeyId).map Record.id).Perm
      (batch.map some) := by
  have hmem : ∀ r ∈ queryObjectsByRelation index passes batch RelationKeyId,
      r ∈ index.records ∧ matchesIn RelationKeyId batch r = true ∧ passes r = true := by
    intro r hr
    simpa [queryObjectsByRelation, List.mem_filter, and_assoc] using hr
  have hids : ∀ r ∈ queryObjectsByRelation index passes batch RelationKeyId,
      ∃ s, r.id = some s := by
    intro r hr
    obtain ⟨s, hs, _⟩ := matchesIn_id batch r (hmem r hr).2.1
    exact ⟨s, hs⟩
  rw [map_id_eq_filterMap _ hids]
  apply List.Perm.map
  have hsub : ((queryObjectsByRelation index passes batch RelationKeyId).filterMap
      Record.id).Sublist (index.records.filterMap Record.id) :=
    List.Sublist.filterMap Record.id (List.filter_sublist _)
  refine (List.perm_ext_iff_of_nodup (hsub.nodup index.unique) hnodup).mpr ?_
  intro s
  constructor
  · intro hs
    obtain ⟨r, hr, hrid⟩ := List.mem_filterMap.mp hs
    obtain ⟨t, ht, htb⟩ := matchesIn_id batch r (hmem r hr).2.1
    rw [ht] at hrid
    simp only [Option.some.injEq] at hrid
    subst hrid
    exact htb
  · intro hs
    obtain ⟨r, hr, hrid, hpass⟩ := hexist s hs
    refine List.mem_filterMap.mpr ⟨r, ?_, hrid⟩
    simp only [queryObjectsByRelation, List.mem_filter, Bool.and_eq_true]
    exact ⟨hr, matchesIn_of_id batch r s hrid hs, hpass⟩

theorem queryAndFilterObjectsByRelation_perm (size : Nat) (store : String → SpaceIndex)
    (passes : Record → Bool) (spaceId : String) (ids : List String)
    (hsize : 0 < size) (hnodup : ids.Nodup)
    (hexist : ∀ id ∈ ids, ∃ r ∈ (store spaceId).records, r.id = some id ∧ passes r = true) :
    ((queryAndFilterObjectsByRelation size store passes spaceId ids RelationKeyId).map
      Record.id).Perm (ids.map some) := by
  have hjoin := batchesFuel_flatMap size hsize ids.length ids (Nat.le_refl _)
  have hbatch : ∀ b ∈ batches size ids,
      ((queryObjectsByRelation (store spaceId) passes b RelationKeyId).map Record.id).Perm
        (b.map some) := by
    intro b hb
    have hsub := batchesFuel_sublist size ids.length ids b hb
    exact queryObjectsByRelation_perm (store spaceId) passes b (hsub.nodup hnodup)
      (fun id hid => hexist id (hsub.subset hid))
  have hperm := List.Perm.flatMap_left (batches size ids) hbatch
  have hright : (batches size ids).flatMap (fun b => b.map some) = ids.map some := by
    have h1 := List.map_flatMap (some : String → Option String) (fun b => b) (batches size ids)
    simp only [batches] at h1 ⊢
    rw [← h1, hjoin]
  rw [hright] at hperm
  simpa only [queryAndFilterObjectsByRelation, List.map_flatMap] using hperm

/-- C9: for every list of pairwise distinct identifiers that all exist in the
store for the space and pass the filters, `queryAndFilterObjectsByRelation`
on the `id` key returns exactly `len(ids)` records, one per identifier and none
twice, whatever the batch size. -/
theorem queryAndFilterObjectsByRelation_exact (size : Nat) (store : String → SpaceIndex)
    (passes : Record → Bool) (spaceId : String) (ids : List String)
    (hsize : 0 < size) (hnodup : ids.Nodup)
    (hexist : ∀ id ∈ ids, ∃ r ∈ (store spaceId).records, r.id = some id ∧ passes r = true) :
    (queryAndFilterObjectsByRelation size store passes spaceId ids RelationKeyId).length =
        ids.length ∧
      ((queryAndFilterObjectsByRelation size store passes spaceId ids RelationKeyId).map
        Record.id).Perm (ids.map some) ∧
      ((queryAndFilterObjectsByRelation size store passes spaceId ids RelationKeyId).map
        Record.id).Nodup := by
  have hperm := queryAndFilterObjectsByRelation_perm size store passes spaceId ids hsize
    hnodup hexist
  refine ⟨?_, hperm, ?_⟩
  · have hlen := hperm.length_eq
    simpa only [List.length_map] using hlen
  · exact hperm.nodup_iff.mpr (hnodup.map (fun _ _ h => Option.some.inj h))

/-- The test "query 10 objects", with ten identifiers paged through in batches
of four. -/
theorem queryAndFilterObjectsByRelation_exact_witness :
    (queryAndFilterObjectsByRelation 4 testStore (fun _ => true) "space1" testIds
        RelationKeyId).length = 10 ∧
      ((queryAndFilterObjectsByRelation 4 testStore (fun _ => true) "space1" testIds
        RelationKeyId).map Record.id).Perm (testIds.map some) ∧
      ((queryAndFilterObjectsByRelation 4 testStore (fun _ => true) "space1" testIds
        RelationKeyId).map Record.id).Nodup :=
  queryAndFilterObjectsByRelation_exact 4 testStore (fun _ => true) "space1" testIds
    (by decide) (by decide) (by decide)

end Export

namespace Date

open Database

/-! ## Properties of the date suggestions -/

/-- C10: for a single suggested date id that is not yet in the records, the
synthetic record is added if and only if the compiled request filters accept
its details: the result is the synthetic record followed by the input records
when it passes, and exactly the input records when it does not. -/
theorem EnrichRecords_single_suggestion (env : Env) (records : List Record)
    (req : RpcObjectSearchRequest) (id : String) (spc : Space) (rec : Record) (f : Filter)
    (hids : suggestDateObjectIds env req = [id])
    (hspace : env.spaceServiceGet req.SpaceId = Except.ok spc)
    (hnew : recordsHasId records id = false)
    (hrec : makeSuggestedDateRecord env spc id = Except.ok rec)
    (hf : env.MakeFilters req.Filters (env.storeSpaceIndex req.SpaceId) = (some f, none)) :
    EnrichRecordsWithDateSuggestions env records req =
      Outcome.ok (if env.FilterObject f rec.Details then rec :: records else records) := by
  simp only [EnrichRecordsWithDateSuggestions, hids, hspace, enrichLoop, hnew, hrec, hf,
    List.isEmpty_cons, Bool.false_eq_true, if_false]
  split <;> rfl

/-- A search whose `id` filter lists one date object that is not stored: the
synthetic record passes the `id` filter and is put ahead of the stored record;
with a further filter on `name`, which it does not pass, the stored records
come back unchanged. -/
theorem EnrichRecords_single_suggestion_witness :
    EnrichRecordsWithDateSuggestions stubEnv [storedRecord]
        { SpaceId := "space1", Filters := [FilterRequest.leaf leafDateId] } =
      Outcome.ok (if stubEnv.FilterObject (Filter.and [Filter.leaf leafDateId])
          stubDateRecord.Details then stubDateRecord :: [storedRecord] else [storedRecord]) ∧
    stubEnv.FilterObject (Filter.and [Filter.leaf leafDateId]) stubDateRecord.Details = true ∧
    EnrichRecordsWithDateSuggestions stubEnv [storedRecord]
        { SpaceId := "space1",
          Filters := [FilterRequest.leaf leafDateId, FilterRequest.leaf leafName] } =
      Outcome.ok (if stubEnv.FilterObject
          (Filter.and [Filter.leaf leafDateId, Filter.leaf leafName])
          stubDateRecord.Details then stubDateRecord :: [storedRecord] else [storedRecord]) ∧
    stubEnv.FilterObject (Filter.and [Filter.leaf leafDateId, Filter.leaf leafName])
      stubDateRecord.Details = false :=
  ⟨EnrichRecords_single_suggestion stubEnv [storedRecord] _ "_date_2024-01-01" stubSpace
      stubDateRecord _ rfl rfl rfl rfl rfl,
   rfl,
   EnrichRecords_single_suggestion stubEnv [storedRecord] _ "_date_2024-01-01" stubSpace
      stubDateRecord _ rfl rfl rfl rfl rfl,
   rfl⟩

theorem recordsHasId_cons (r : Record) (rest : List Record) (id : String) :
    recordsHasId (r :: rest) id =
      ((match r.get RelationKeyId with
        | some v => decide (v.GetStringValue = id)
        | none => false) || recordsHasId rest id) := by
  obtain ⟨details⟩ := r
  cases details with
  | none => simp [recordsHasId, Record.get]
  | some d =>
    obtain ⟨fields⟩ := d
    cases fields with
    | none => simp [recordsHasId, Record.get]
    | some fs =>
      cases hl : fs.lookup RelationKeyId with
      | none => simp [recordsHasId, Record.get, hl]
      | some v => by_cases hv : v.GetStringValue = id <;> simp [recordsHasId, Record.get, hl, hv]

theorem recordsHasId_of_carries (records : List Record) (id : String)
    (h : ∃ r ∈ records, r.get RelationKeyId = some (Value.string id)) :
    recordsHasId records id = true := by
  induction records with
  | nil => obtain ⟨r, hr, _⟩ := h; cases hr
  | cons r rest ih =>
    obtain ⟨x, hx, hget⟩ := h
    rw [recordsHasId_cons]
    rcases List.mem_cons.mp hx with hxr | hxr
    · subst hxr
      simp [hget, Value.GetStringValue]
    · simp [ih ⟨x, hxr, hget⟩]

theorem enrichLoop_skip (env : Env) (spc : Space) (req : RpcObjectSearchRequest)
    (id : String) (ids : List String) (records : List Record)
    (h : recordsHasId records id = true) :
    enrichLoop env spc req (id :: ids) records = enrichLoop env spc req ids records := by
  simp [enrichLoop, h]

theorem enrichLoop_all_present (env : Env) (spc : Space) (req : RpcObjectSearchRequest)
    (ids : List String) (records : List Record)
    (h : ∀ id ∈ ids, recordsHasId records id = true) :
    enrichLoop env spc req ids records = Outcome.ok records := by
  induction ids with
  | nil => rfl
  | cons id rest ih =>
    rw [enrichLoop_skip env spc req id rest records (h id (List.mem_cons_self id rest))]
    exact ih (fun x hx => h x (List.mem_cons_of_mem id hx))

theorem enrichLoop_append (env : Env) (spc : Space) (req : RpcObjectSearchRequest)
    (before after : List String) (records : List Record) :
    enrichLoop env spc req (before ++ after) records =
      match enrichLoop env spc req before records with
      | Outcome.ok records1 => enrichLoop env spc req after records1
      | Outcome.error e => Outcome.error e
      | Outcome.panic => Outcome.panic := by
  induction before generalizing records with
  | nil => rfl
  | cons id rest ih =>
    simp only [List.cons_append, enrichLoop]
    split
    · exact ih records
    · split
      · rfl
      · split
        · rfl
        · split
          · exact ih _
          · exact ih records

theorem enrichLoop_suffix (env : Env) (spc : Space) (req : RpcObjectSearchRequest)
    (ids : List String) (records out : List Record)
    (h : enrichLoop env spc req ids records = Outcome.ok out) :
    ∃ added, out = added ++ records ∧
      ∀ rec ∈ added, ∃ id ∈ ids, makeSuggestedDateRecord env spc id = Except.ok rec := by
  induction ids generalizing records with
  | nil =>
    simp only [enrichLoop, Outcome.ok.injEq] at h
    exact ⟨[], by simp [h], by simp⟩
  | cons id rest ih =>
    have lift : ∀ added : List Record,
        (∀ rec ∈ added, ∃ x ∈ rest, makeSuggestedDateRecord env spc x = Except.ok rec) →
        ∀ rec ∈ added, ∃ x ∈ id :: rest, makeSuggestedDateRecord env spc x = Except.ok rec := by
      intro added hadded rec hrec
      obtain ⟨x, hx, hmk⟩ := hadded rec hrec
      exact ⟨x, List.mem_cons_of_mem id hx, hmk⟩
    unfold enrichLoop at h
    split at h
    · obtain ⟨added, hout, hadded⟩ := ih records h
      exact ⟨added, hout, lift added hadded⟩
    · split at h
      · cases h
      · rename_i rec hmk
        split at h
        · cases h
        · split at h
          · obtain ⟨added, hout, hadded⟩ := ih (rec :: records) h
            refine ⟨added ++ [rec], by simp [hout], ?_⟩
            intro r hr
            rcases List.mem_append.mp hr with hr1 | hr1
            · exact lift added hadded r hr1
            · simp only [List.mem_singleton] at hr1
              subst hr1
              exact ⟨id, List.mem_cons_self id rest, hmk⟩
          · obtain ⟨added, hout, hadded⟩ := ih records h
            exact ⟨added, hout, lift added hadded⟩

/-- C11, as stated, fails: with a space service that finds no space, a search
whose only suggested id is already carried by an input record returns the
error of the space lookup, not the input list with a nil error. -/
theorem EnrichRecords_present_ids_counterexample :
    suggestDateObjectIds noSpaceEnv dateIdRequest = ["_date_2024-01-01"] ∧
    stubDateRecord.get RelationKeyId = some (Value.string "_date_2024-01-01") ∧
    EnrichRecordsWithDateSuggestions noSpaceEnv [stubDateRecord, storedRecord] dateIdRequest =
      Outcome.error "get space: space not found" :=
  ⟨rfl, rfl, rfl⟩

/-- C11, amended: a suggested id that some record of the list carries in its
`id` detail is skipped entirely, the loop goes on with the list unchanged and
no synthetic record is built or evaluated for it; if every suggested id is
already carried by an input record and the space lookup succeeds (or no id is
suggested), the returned list equals the input list with a nil error. -/
theorem EnrichRecords_present_ids_skipped (env : Env) (records : List Record)
    (req : RpcObjectSearchRequest)
    (hpresent : ∀ id ∈ suggestDateObjectIds env req,
      ∃ r ∈ records, r.get RelationKeyId = some (Value.string id))
    (hspace : suggestDateObjectIds env req = [] ∨
      ∃ spc, env.spaceServiceGet req.SpaceId = Except.ok spc) :
    EnrichRecordsWithDateSuggestions env records req = Outcome.ok records ∧
    ∀ (spc : Space) (id : String) (ids : List String) (recs : List Record),
      (∃ r ∈ recs, r.get RelationKeyId = some (Value.string id)) →
      enrichLoop env spc req (id :: ids) recs = enrichLoop env spc req ids recs := by
  constructor
  · unfold EnrichRecordsWithDateSuggestions
    rcases hspace with hnone | ⟨spc, hspc⟩
    · simp [hnone]
    · simp only [hspc]
      split
      · rfl
      · exact enrichLoop_all_present env spc req _ records
          (fun id hid => recordsHasId_of_carries records id (hpresent id hid))
  · intro spc id ids recs hcarries
    exact enrichLoop_skip env spc req id ids recs (recordsHasId_of_carries recs id hcarries)

/-- A search whose only suggested id is carried by an input record, in an
environment where no synthetic record can be built or evaluated: the input list
comes back unchanged. -/
theorem EnrichRecords_present_ids_skipped_witness :
    EnrichRecordsWithDateSuggestions noBuildEnv [stubDateRecord, storedRecord] dateIdRequest =
      Outcome.ok [stubDateRecord, storedRecord] :=
  (EnrichRecords_present_ids_skipped noBuildEnv [stubDateRecord, storedRecord] dateIdRequest
    (by
      intro id hid
      have hids : suggestDateObjectIds noBuildEnv dateIdRequest = ["_date_2024-01-01"] := rfl
      rw [hids, List.mem_singleton] at hid
      subst hid
      exact ⟨stubDateRecord, List.mem_cons_self _ _, rfl⟩)
    (Or.inr ⟨stubSpace, rfl⟩)).1

/-- C12: whenever `EnrichRecordsWithDateSuggestions` returns without error, the
input records are a suffix of the returned list, unchanged and in their order,
and what stands ahead of them are synthetic records built for suggested ids. -/
theorem EnrichRecords_input_suffix (env : Env) (records out : List Record)
    (req : RpcObjectSearchRequest)
    (h : EnrichRecordsWithDateSuggestions env records req = Outcome.ok out) :
    ∃ added, out = added ++ records ∧
      ∀ rec ∈ added, ∃ spc, env.spaceServiceGet req.SpaceId = Except.ok spc ∧
        ∃ id ∈ suggestDateObjectIds env req, makeSuggestedDateRecord env spc id = Except.ok rec := by
  unfold EnrichRecordsWithDateSuggestions at h
  simp only at h
  split at h
  · simp only [Outcome.ok.injEq] at h
    exact ⟨[], by simp [h], by simp⟩
  · split at h
    · cases h
    · rename_i spc hspc
      obtain ⟨added, hout, hadded⟩ := enrichLoop_suffix env spc req _ records out h
      exact ⟨added, hout, fun rec hrec => ⟨spc, hspc, hadded rec hrec⟩⟩

/-- The search of the stub: the synthetic date record is put ahead of the
stored record. -/
theorem EnrichRecords_input_suffix_witness :
    EnrichRecordsWithDateSuggestions stubEnv [storedRecord] dateIdRequest =
      Outcome.ok [stubDateRecord, storedRecord] ∧
    ∃ added, [stubDateRecord, storedRecord] = added ++ [storedRecord] ∧
      ∀ rec ∈ added, ∃ spc, stubEnv.spaceServiceGet dateIdRequest.SpaceId = Except.ok spc ∧
        ∃ id ∈ suggestDateObjectIds stubEnv dateIdRequest,
          makeSuggestedDateRecord stubEnv spc id = Except.ok rec :=
  ⟨rfl, EnrichRecords_input_suffix stubEnv [storedRecord] [stubDateRecord, storedRecord]
    dateIdRequest rfl⟩

/-- C13 fails on the code: the error of `MakeFilters` is dropped (`f, _ :=`).
For a request with a malformed filter the stub compiler returns no filter and
an error, and the call on the nil filter panics instead of returning that
error; when a compiler returns a filter together with an error, that filter is
evaluated and the records are returned with a nil error. -/
theorem EnrichRecords_filter_error_dropped :
    stubEnv.MakeFilters malformedRequest.Filters
        (stubEnv.storeSpaceIndex malformedRequest.SpaceId) =
      (none, some "filters do not compile") ∧
    EnrichRecordsWithDateSuggestions stubEnv [storedRecord] malformedRequest = Outcome.panic ∧
    partialFiltersEnv.MakeFilters malformedRequest.Filters
        (partialFiltersEnv.storeSpaceIndex malformedRequest.SpaceId) =
      (some (Filter.and []), some "filters do not compile") ∧
    EnrichRecordsWithDateSuggestions partialFiltersEnv [storedRecord] malformedRequest =
      Outcome.ok [stubDateRecord, storedRecord] :=
  ⟨rfl, rfl, rfl, rfl⟩

/-- C17: errors propagate out of `EnrichRecordsWithDateSuggestions` without a
partial result. If ids are suggested and the space lookup fails, or the loop
reaches a suggested id that the records so far do not carry and building its
synthetic record fails, the result is the wrapped error and no record list. -/
theorem EnrichRecords_errors_propagate (env : Env) (records : List Record)
    (req : RpcObjectSearchRequest) :
    (∀ e, suggestDateObjectIds env req ≠ [] →
      env.spaceServiceGet req.SpaceId = Except.error e →
      EnrichRecordsWithDateSuggestions env records req = Outcome.error ("get space: " ++ e)) ∧
    (∀ spc before id after records1 e,
      suggestDateObjectIds env req = before ++ id :: after →
      env.spaceServiceGet req.SpaceId = Except.ok spc →
      enrichLoop env spc req before records = Outcome.ok records1 →
      recordsHasId records1 id = false →
      makeSuggestedDateRecord env spc id = Except.error e →
      EnrichRecordsWithDateSuggestions env records req =
        Outcome.error ("make date record: " ++ e)) := by
  constructor
  · intro e hne hspace
    unfold EnrichRecordsWithDateSuggestions
    cases hids : suggestDateObjectIds env req with
    | nil => exact absurd hids hne
    | cons id rest => simp [hspace]
  · intro spc before id after records1 e hids hspace hbefore hnew hfail
    unfold EnrichRecordsWithDateSuggestions
    simp only [hids, hspace]
    have hempty : (before ++ id :: after).isEmpty = false := by
      cases before <;> rfl
    simp only [hempty, Bool.false_eq_true, if_false]
    rw [enrichLoop_append, hbefore]
    simp [enrichLoop, hnew, hfail]

/-- The space lookup fails for the search of the stub; and, with a date source
that provides no details, building the record for the one suggested id
fails. Both errors come back wrapped, without records. -/
theorem EnrichRecords_errors_propagate_witness :
    EnrichRecordsWithDateSuggestions noSpaceEnv [storedRecord] dateIdRequest =
      Outcome.error ("get space: " ++ "space not found") ∧
    EnrichRecordsWithDateSuggestions noBuildEnv [storedRecord] dateIdRequest =
      Outcome.error ("make date record: " ++ "source does not implement DetailsFromId") :=
  ⟨(EnrichRecords_errors_propagate noSpaceEnv [storedRecord] dateIdRequest).1
      "space not found" (by decide) rfl,
   (EnrichRecords_errors_propagate noBuildEnv [storedRecord] dateIdRequest).2
      stubSpace [] "_date_2024-01-01" [] [storedRecord]
      "source does not implement DetailsFromId" rfl rfl rfl rfl rfl⟩

theorem dateObjectIdsOfFilters_first (env : Env) (before after : List FilterRequest)
    (f : FilterRequest) (hbefore : ∀ g ∈ before, g.RelationKey ≠ RelationKeyId)
    (hf : f.RelationKey = RelationKeyId) :
    dateObjectIdsOfFilters env (before ++ f :: after) =
      (env.GetStringListValue f.Value).filter (validDateObjectId env) := by
  induction before with
  | nil =>
    simp only [List.nil_append, dateObjectIdsOfFilters, hf, if_true]
    congr 1
  | cons g rest ih =>
    have hg := hbefore g (List.mem_cons_self g rest)
    simp only [List.cons_append, dateObjectIdsOfFilters, hg, if_false]
    exact ih (fun x hx => hbefore x (List.mem_cons_of_mem g hx))

theorem dateObjectIdsOfFilters_none (env : Env) (filters : List FilterRequest)
    (h : ∀ g ∈ filters, g.RelationKey ≠ RelationKeyId) :
    dateObjectIdsOfFilters env filters = [] := by
  induction filters with
  | nil => rfl
  | cons g rest ih =>
    have hg := h g (List.mem_cons_self g rest)
    simp only [dateObjectIdsOfFilters, hg, if_false]
    exact ih (fun x hx => h x (List.mem_cons_of_mem g hx))

/-- C19: when the full text of the request does not parse to a date,
`suggestDateObjectIds` returns exactly the entries of the string-list value of
the first top-level filter keyed `id` that are valid date object ids, in their
order and multiplicity; later filters and filters on other keys contribute
nothing, and without a filter keyed `id` the result is empty. -/
theorem suggestDateObjectIds_first_id_filter (env : Env) (req : RpcObjectSearchRequest)
    (hzero : (suggestDateForSearch env env.Now req.FullText).IsZero = true) :
    (∀ before f after, req.Filters = before ++ f :: after →
      (∀ g ∈ before, g.RelationKey ≠ RelationKeyId) → f.RelationKey = RelationKeyId →
      suggestDateObjectIds env req =
        (env.GetStringListValue f.Value).filter (validDateObjectId env)) ∧
    ((∀ g ∈ req.Filters, g.RelationKey ≠ RelationKeyId) → suggestDateObjectIds env req = []) := by
  constructor
  · intro before f after hfilters hbefore hf
    simp only [suggestDateObjectIds, hzero, hfilters]
    exact dateObjectIdsOfFilters_first env before after f hbefore hf
  · intro hnone
    simp only [suggestDateObjectIds, hzero]
    exact dateObjectIdsOfFilters_none env req.Filters hnone

/-- A request whose text is no date, with a filter on `name`, a filter on `id`
listing four identifiers and a later filter on `id`: the three date object ids
of the first `id` filter come back, in order, the repeated one twice. -/
theorem suggestDateObjectIds_first_id_filter_witness :
    (suggestDateForSearch stubEnv stubEnv.Now mixedIdsRequest.FullText).IsZero = true ∧
    suggestDateObjectIds stubEnv mixedIdsRequest =
      ["_date_2024-01-02", "_date_2024-01-02", "_date_2024-01-03"] :=
  ⟨rfl,
   ((suggestDateObjectIds_first_id_filter stubEnv mixedIdsRequest rfl).1
      [FilterRequest.leaf leafName] (FilterRequest.leaf leafMixedIds)
      [FilterRequest.leaf leafDateId] rfl (by decide) rfl).trans rfl⟩

theorem not_mem_ids_of_recordsHasId (records : List Record) (id : String)
    (h : recordsHasId records id = false) : id ∉ records.filterMap Record.id := by
  intro hmem
  obtain ⟨r, hr, hid⟩ := List.mem_filterMap.mp hmem
  have hget : r.get RelationKeyId = some (Value.string id) := by
    unfold Record.id at hid
    split at hid
    · next s hs =>
      simp only [Option.some.injEq] at hid
      subst hid
      exact hs
    · cases hid
  rw [recordsHasId_of_carries records id ⟨r, hr, hget⟩] at h
  cases h

theorem Record_id_of_carries (rec : Record) (id : String)
    (h : rec.get RelationKeyId = some (Value.string id)) : rec.id = some id := by
  simp [Record.id, h]

theorem enrichLoop_nodup (env : Env) (spc : Space) (req : RpcObjectSearchRequest)
    (hcarry : ∀ id rec, makeSuggestedDateRecord env spc id = Except.ok rec →
      rec.get RelationKeyId = some (Value.string id))
    (ids : List String) (records out : List Record)
    (hnodup : (records.filterMap Record.id).Nodup)
    (h : enrichLoop env spc req ids records = Outcome.ok out) :
    (out.filterMap Record.id).Nodup := by
  induction ids generalizing records with
  | nil =>
    simp only [enrichLoop, Outcome.ok.injEq] at h
    subst h
    exact hnodup
  | cons id rest ih =>
    unfold enrichLoop at h
    split at h
    · exact ih records hnodup h
    · next hhas =>
      split at h
      · cases h
      · next rec hmk =>
        split at h
        · cases h
        · split at h
          · refine ih (rec :: records) ?_ h
            rw [List.filterMap_cons_some (Record_id_of_carries rec id (hcarry id rec hmk))]
            refine List.nodup_cons.mpr ⟨?_, hnodup⟩
            exact not_mem_ids_of_recordsHasId records id (by simpa using hhas)
          · exact ih records hnodup h

/-- C22: `EnrichRecordsWithDateSuggestions` never introduces a duplicate
identifier. When every synthetic record built for an id carries that id in its
`id` detail and the input records have pairwise distinct ids, the records of a
result `(records, nil)` have pairwise distinct ids, whatever the list of
suggested ids is, repeated ids included: `recordsHasId` is asked about the
list as extended so far. -/
theorem EnrichRecords_ids_distinct (env : Env) (records out : List Record)
    (req : RpcObjectSearchRequest)
    (hcarry : ∀ spc id rec, env.spaceServiceGet req.SpaceId = Except.ok spc →
      makeSuggestedDateRecord env spc id = Except.ok rec →
      rec.get RelationKeyId = some (Value.string id))
    (hnodup : (records.filterMap Record.id).Nodup)
    (h : EnrichRecordsWithDateSuggestions env records req = Outcome.ok out) :
    (out.filterMap Record.id).Nodup := by
  unfold EnrichRecordsWithDateSuggestions at h
  simp only at h
  split at h
  · simp only [Outcome.ok.injEq] at h
    subst h
    exact hnodup
  · split at h
    · cases h
    · next spc hspc =>
      exact enrichLoop_nodup env spc req (fun id rec hmk => hcarry spc id rec hspc hmk)
        _ records out hnodup h

/-- The stub on a request that lists `_date_2024-01-01` twice, over one stored
record: the ids suggested are the id twice, the synthetic record is added once,
and the two records of the result have distinct ids. -/
theorem EnrichRecords_ids_distinct_witness :
    suggestDateObjectIds stubEnv repeatedIdRequest = ["_date_2024-01-01", "_date_2024-01-01"] ∧
    EnrichRecordsWithDateSuggestions stubEnv [storedRecord] repeatedIdRequest =
      Outcome.ok [stubDateRecord, storedRecord] ∧
    ([stubDateRecord, storedRecord].filterMap Record.id).Nodup :=
  ⟨by decide, by decide,
   EnrichRecords_ids_distinct stubEnv [storedRecord] [stubDateRecord, storedRecord]
    repeatedIdRequest
    (by
      intro spc id rec _ hmk
      unfold makeSuggestedDateRecord at hmk
      split at hmk
      · cases hmk
      · simp only [stubEnv] at hmk
        cases hmk
        rfl)
    (by decide) (by decide)⟩

end Date

namespace AccountObject

open Database

/-! ## Properties of the relations mapper -/

/-- C15, as stated, fails: for the key `iconOption`, mapped to `KeyTypeInt64`,
a stored 0 is reported as unset, `(Invalid, false)`, not as `(Int64(0), true)`. -/
theorem GetRelationKey_zero_counterexample :
    stubMapper.keys "iconOption" = some KeyTypeInt64 ∧
    zeroDocument.GetInt "iconOption" = 0 ∧
    GetRelationKey stubMapper "iconOption" zeroDocument = (Value.absent, false) ∧
    GetRelationKey stubMapper "iconOption" zeroDocument ≠ (Value.int64 0, true) :=
  ⟨rfl, rfl, rfl, by decide⟩

/-- C15, amended: `GetRelationKey` does not keep a stored zero distinct from
absence. For every key mapped to `KeyTypeInt64` a stored 0 is reported as
unset, `(Invalid, false)`, and every other stored integer `n` as present,
`(Int64(n), true)`; for every key mapped to `KeyTypeString` a stored string
whose bytes are not nil, the empty string included, is reported as present,
`(String(s), true)`. -/
theorem GetRelationKey_zero_is_unset (r : relationsMapper) (key : String) (val : AnyencValue) :
    (r.keys key = some KeyTypeInt64 →
      GetRelationKey r key val =
        if val.GetInt key = 0 then (Value.absent, false)
        else (Value.int64 (val.GetInt key), true)) ∧
    (r.keys key = some KeyTypeString → ∀ bytes, val.GetStringBytes key = some bytes →
      GetRelationKey r key val = (Value.string bytes, true)) := by
  constructor
  · intro hkey
    have hne : ¬ KeyTypeInt64 = KeyTypeString := by decide
    simp only [GetRelationKey, hkey, hne, if_false, if_true]
  · intro hkey bytes hbytes
    simp only [GetRelationKey, hkey, hbytes, if_true]

/-- The stub mapper on two stored documents: a stored 0 is unset and a stored 5
is present; the empty name and the name `Alice` are both present. -/
theorem GetRelationKey_zero_is_unset_witness :
    GetRelationKey stubMapper "iconOption" zeroDocument = (Value.absent, false) ∧
    GetRelationKey stubMapper "iconOption" aliceDocument = (Value.int64 5, true) ∧
    GetRelationKey stubMapper "name" zeroDocument = (Value.string "", true) ∧
    GetRelationKey stubMapper "name" aliceDocument = (Value.string "Alice", true) :=
  ⟨((GetRelationKey_zero_is_unset stubMapper "iconOption" zeroDocument).1 rfl).trans rfl,
   ((GetRelationKey_zero_is_unset stubMapper "iconOption" aliceDocument).1 rfl).trans rfl,
   (GetRelationKey_zero_is_unset stubMapper "name" zeroDocument).2 rfl "" rfl,
   (GetRelationKey_zero_is_unset stubMapper "name" aliceDocument).2 rfl "Alice" rfl⟩

theorem GetStoreKey_empty_string (toInt64 : Nat → Int) (r : relationsMapper) (key : String)
    (val : PbValue) (hkey : r.keys key = some KeyTypeString)
    (hempty : val.GetStringValue = "") :
    GetStoreKey toInt64 r key val = (GoAny.nil, false) := by
  simp only [GetStoreKey, hkey, hempty, if_true]

/-- C16 fails on the code for `KeyTypeInt64`: the guard `res == 0` compares
`res`, an `any` that holds an `int64`, with the constant 0, an `int`, and is
never true. For every key mapped to `KeyTypeInt64` and every value,
`GetStoreKey` returns the converted number with `ok = true`, also when the
number converts to the `int64` 0. -/
theorem GetStoreKey_int64_always_found (toInt64 : Nat → Int) (r : relationsMapper)
    (key : String) (val : PbValue) (hkey : r.keys key = some KeyTypeInt64) :
    GetStoreKey toInt64 r key val = (GoAny.int64 (toInt64 val.GetNumberValue), true) := by
  have hne : ¬ KeyTypeInt64 = KeyTypeString := by decide
  simp only [GetStoreKey, hkey, hne, if_false, if_true]
  rfl

/-- The stub mapper on the number 0 under `iconOption`: the result is
`int64(0)` with `ok = true`, not `(nil, false)`; the empty string under `name`
is not found. -/
theorem GetStoreKey_int64_always_found_witness :
    GetStoreKey stubToInt64 stubMapper "iconOption" (PbValue.NumberValue 0) =
      (GoAny.int64 0, true) ∧
    GetStoreKey stubToInt64 stubMapper "name" (PbValue.StringValue "") = (GoAny.nil, false) :=
  ⟨GetStoreKey_int64_always_found stubToInt64 stubMapper "iconOption" (PbValue.NumberValue 0)
      rfl,
   rfl⟩

/-- C28 fails on the code: for a key whose `KeyType` is neither `KeyTypeString`
nor `KeyTypeInt64` no case of the switch in `GetStoreKey` runs, and the final
`return res, true` returns the nil `res` with `ok = true`, for every value;
`GetRelationKey` answers `(domain.Invalid(), false)` for the same key on every
stored document. -/
theorem GetStoreKey_unknown_type_nil_found (toInt64 : Nat → Int) (r : relationsMapper)
    (key : String) (kt : KeyType) (hkey : r.keys key = some kt)
    (hs : kt ≠ KeyTypeString) (hi : kt ≠ KeyTypeInt64) :
    (∀ val, GetStoreKey toInt64 r key val = (GoAny.nil, true)) ∧
    (∀ doc, GetRelationKey r key doc = (Value.absent, false)) := by
  constructor
  · intro val
    simp only [GetStoreKey, hkey, hs, hi, if_false]
  · intro doc
    simp only [GetRelationKey, hkey, hs, hi, if_false]

/-- The mapper with a key of `KeyType` 2: `GetStoreKey` returns `(nil, true)`
for the number 7 under that key, and `GetRelationKey` returns
`(domain.Invalid(), false)`. -/
theorem GetStoreKey_unknown_type_nil_found_witness :
    GetStoreKey stubToInt64 unknownTypeMapper "sharedSpacesLimit" (PbValue.NumberValue 7) =
      (GoAny.nil, true) ∧
    GetRelationKey unknownTypeMapper "sharedSpacesLimit" aliceDocument =
      (Value.absent, false) :=
  have h := GetStoreKey_unknown_type_nil_found stubToInt64 unknownTypeMapper
    "sharedSpacesLimit" 2 rfl (by decide) (by decide)
  ⟨h.1 (PbValue.NumberValue 7), h.2 aliceDocument⟩

end AccountObject

namespace Text

/-! ## Properties of the UTF-16 helpers -/

theorem char_range (c : Char) : c.toNat < 55296 ∨ (57343 < c.toNat ∧ c.toNat < 1114112) := by
  have h := c.valid
  simpa [UInt32.isValidChar, Nat.isValidChar, Char.toNat] using h

theorem toNat_ofNat_valid (n : Nat) (h : n < 55296 ∨ (57343 < n ∧ n < 1114112)) :
    (Char.ofNat n).toNat = n := by
  have hv : n.isValidChar := h
  simp [Char.ofNat, hv, Char.ofNatAux, Char.toNat, UInt32.toNat]

theorem AppendRune_nil_length (r : Nat) :
    (AppendRune [] r).length = if surrSelf ≤ r ∧ r ≤ maxRune then 2 else 1 := by
  unfold AppendRune
  simp only [surr1, surr3, surrSelf, maxRune]
  split
  · rw [if_neg (by omega)]; rfl
  · split <;> rfl

theorem Encode_cons_length (r : Nat) (rest : List Nat) :
    (Encode (r :: rest)).length =
      (if surrSelf ≤ r ∧ r ≤ maxRune then 2 else 1) + (Encode rest).length := by
  simp only [Encode, surr1, surr3, surrSelf, maxRune]
  split
  · rw [if_neg (by omega)]; simp; omega
  · split <;> simp <;> omega

theorem countLoop_eq (rs : List Nat) (n : Nat) :
    countLoop rs n = n + (Encode rs).length := by
  induction rs generalizing n with
  | nil => rfl
  | cons r rest ih =>
    rw [countLoop, ih, AppendRune_nil_length, Encode_cons_length]
    omega

theorem UTF16RuneCountString_eq (s : GoString) :
    UTF16RuneCountString s = (StrToUTF16 s).length := by
  simp [UTF16RuneCountString, StrToUTF16, countLoop_eq]

/-- C26: for every string `s`, `UTF16RuneCountString(s)` equals the length of
`StrToUTF16(s)`: the counting loop and the whole-string encoding agree, one
unit for a character of the Basic Multilingual Plane, two for any other, one
for the replacement character of an invalid byte. -/
theorem UTF16RuneCountString_eq_length (s : GoString) :
    UTF16RuneCountString s = (StrToUTF16 s).length ∧
    (StrToUTF16 s).length =
      (s.map fun ch =>
        match ch with
        | GoChar.rune c => if c.toNat < 65536 then 1 else 2
        | GoChar.invalid _ => 1).sum := by
  constructor
  · exact UTF16RuneCountString_eq s
  · unfold StrToUTF16 runes
    induction s with
    | nil => rfl
    | cons ch rest ih =>
      rw [List.map_cons, Encode_cons_length, ih, List.map_cons, List.sum_cons]
      congr 1
      cases ch with
      | rune c =>
        have hc := char_range c
        simp only [GoChar.toRune, surrSelf, maxRune]
        split <;> split <;> omega
      | invalid b => simp [GoChar.toRune, RuneError, surrSelf]

theorem Encode_append (a b : List Nat) : Encode (a ++ b) = Encode a ++ Encode b := by
  induction a with
  | nil => rfl
  | cons r rest ih =>
    by_cases h1 : r < surr1 ∨ (surr3 ≤ r ∧ r < surrSelf)
    · simp [Encode, h1, ih]
    · by_cases h2 : surrSelf ≤ r ∧ r ≤ maxRune
      · simp [Encode, h1, h2, ih]
      · simp [Encode, h1, h2, ih]

theorem UTF16RuneCountString_append (a b : GoString) :
    UTF16RuneCountString (a ++ b) = UTF16RuneCountString a + UTF16RuneCountString b := by
  simp [UTF16RuneCountString, countLoop_eq, runes, Encode_append]

theorem Encode_lt (rs : List Nat) : ∀ u ∈ Encode rs, u < 65536 := by
  induction rs with
  | nil => intro u hu; cases hu
  | cons r rest ih =>
    intro u hu
    simp only [Encode, surr1, surr3, surrSelf, maxRune] at hu
    split at hu
    · rcases List.mem_cons.mp hu with h | h
      · omega
      · exact ih u h
    · split at hu
      · simp only [List.mem_cons, EncodeRune, surr1, surr2, surrSelf] at hu
        rcases hu with h | h | h
        · omega
        · omega
        · exact ih u h
      · rcases List.mem_cons.mp hu with h | h
        · simp [h, RuneError]
        · exact ih u h

theorem runes_stringOfRunes (rs : List Nat) :
    runes (stringOfRunes rs) = rs.map fun r => (runeToChar r).toNat := by
  simp [runes, stringOfRunes, GoChar.toRune, Function.comp_def]

theorem runeToChar_toNat (r : Nat) :
    (runeToChar r).toNat = if r < surr1 ∨ (surr3 ≤ r ∧ r ≤ maxRune) then r else RuneError := by
  unfold runeToChar
  simp only [surr1, surr3, maxRune, RuneError]
  split
  · exact toNat_ofNat_valid r (by omega)
  · exact toNat_ofNat_valid 65533 (by omega)

theorem Decode_normal (r : Nat) (rest : List Nat) (h : r < surr1 ∨ surr3 ≤ r) :
    Decode (r :: rest) = r :: Decode rest := by
  rw [Decode.eq_def]
  simp [h]

theorem Decode_lone (r : Nat) (h : ¬ (r < surr1 ∨ surr3 ≤ r)) :
    Decode [r] = [RuneError] := by
  rw [Decode.eq_def]
  simp [h]

theorem Decode_pair (r r2 : Nat) (rest2 : List Nat) (h : ¬ (r < surr1 ∨ surr3 ≤ r))
    (hpair : surr1 ≤ r ∧ r < surr2 ∧ surr2 ≤ r2 ∧ r2 < surr3) :
    Decode (r :: r2 :: rest2) = DecodeRune r r2 :: Decode rest2 := by
  rw [Decode.eq_def]
  simp [h, hpair]

theorem Decode_unpaired (r r2 : Nat) (rest2 : List Nat) (h : ¬ (r < surr1 ∨ surr3 ≤ r))
    (hpair : ¬ (surr1 ≤ r ∧ r < surr2 ∧ surr2 ≤ r2 ∧ r2 < surr3)) :
    Decode (r :: r2 :: rest2) = RuneError :: Decode (r2 :: rest2) := by
  rw [Decode.eq_def]
  simp only [h, if_false]
  rw [if_neg hpair]

theorem units_normal (r : Nat) (hr : r < 65536) :
    (if surrSelf ≤ (runeToChar r).toNat ∧ (runeToChar r).toNat ≤ maxRune then 2 else 1) = 1 := by
  rw [runeToChar_toNat]
  simp only [surr1, surr3, surrSelf, maxRune, RuneError]
  split_ifs <;> omega

theorem units_pair (r r2 : Nat) (hpair : surr1 ≤ r ∧ r < surr2 ∧ surr2 ≤ r2 ∧ r2 < surr3) :
    (if surrSelf ≤ (runeToChar (DecodeRune r r2)).toNat ∧
        (runeToChar (DecodeRune r r2)).toNat ≤ maxRune then 2 else 1) = 2 := by
  rw [runeToChar_toNat]
  simp only [surr1, surr2, surr3, surrSelf, maxRune, RuneError, DecodeRune] at hpair ⊢
  split_ifs <;> omega

theorem units_RuneError :
    (if surrSelf ≤ (runeToChar RuneError).toNat ∧ (runeToChar RuneError).toNat ≤ maxRune
      then 2 else 1) = 1 := by
  rw [runeToChar_toNat]
  simp only [surr1, surr3, surrSelf, maxRune, RuneError]
  split_ifs <;> omega

theorem Decode_encoded_length (n : Nat) :
    ∀ us : List Nat, us.length ≤ n → (∀ u ∈ us, u < 65536) →
      (Encode ((Decode us).map fun r => (runeToChar r).toNat)).length = us.length := by
  induction n with
  | zero =>
    intro us hlen _
    have hnil : us = [] := List.length_eq_zero.mp (Nat.le_zero.mp hlen)
    subst hnil
    rfl
  | succ n ih =>
    intro us hlen hlt
    cases us with
    | nil => rfl
    | cons r rest =>
      have hr : r < 65536 := hlt r (List.mem_cons_self r rest)
      have hrest : ∀ u ∈ rest, u < 65536 := fun u hu => hlt u (List.mem_cons_of_mem r hu)
      have hlen1 : rest.length ≤ n := by simpa using hlen
      by_cases hnormal : r < surr1 ∨ surr3 ≤ r
      · rw [Decode_normal r rest hnormal, List.map_cons, Encode_cons_length,
          ih rest hlen1 hrest, units_normal r hr, List.length_cons]
        omega
      · cases rest with
        | nil =>
          rw [Decode_lone r hnormal, List.map_cons, Encode_cons_length, units_RuneError]
          rfl
        | cons r2 rest2 =>
          by_cases hpair : surr1 ≤ r ∧ r < surr2 ∧ surr2 ≤ r2 ∧ r2 < surr3
          · have hrest2 : ∀ u ∈ rest2, u < 65536 :=
              fun u hu => hrest u (List.mem_cons_of_mem r2 hu)
            have hlen2 : rest2.length ≤ n := by
              simp only [List.length_cons] at hlen1
              omega
            rw [Decode_pair r r2 rest2 hnormal hpair, List.map_cons, Encode_cons_length,
              ih rest2 hlen2 hrest2, units_pair r r2 hpair]
            simp only [List.length_cons]
            omega
          · rw [Decode_unpaired r r2 rest2 hnormal hpair, List.map_cons, Encode_cons_length,
              ih (r2 :: rest2) hlen1 hrest, units_RuneError]
            simp only [List.length_cons]
            omega

theorem UTF16RuneCountString_UTF16ToStr (us : List Nat) (h : ∀ u ∈ us, u < 65536) :
    UTF16RuneCountString (UTF16ToStr us) = us.length := by
  simp only [UTF16RuneCountString, UTF16ToStr, countLoop_eq, runes_stringOfRunes, Nat.zero_add]
  exact Decode_encoded_length us.length us (Nat.le_refl _) h

theorem truncateLoop_some (inScripts : Nat → Bool) (L : Int) (units : List Nat) :
    ∀ st : TruncateState, st.currentLen = st.i → st.lastWordIndex ≤ st.i →
      st.lastNonSpace ≤ st.i → (st.i : Int) ≤ L → L < (st.i : Int) + units.length →
      ∃ pos, truncateLoop inScripts L units st = some pos ∧ (pos : Int) ≤ L := by
  induction units with
  | nil =>
    intro st _ _ _ hi hL
    simp only [List.length_nil, Nat.cast_zero, add_zero] at hL
    omega
  | cons r rest ih =>
    intro st hcur hlwi hlns hi hL
    simp only [truncateLoop]
    have hlwi1 : (if IsSpace r then st.lastNonSpace
        else if inScripts r then st.i else st.lastWordIndex) ≤ st.i := by
      split
      · exact hlns
      · split
        · exact Nat.le_refl _
        · exact hlwi
    have hlns1 : (if IsSpace r then st.lastNonSpace
        else if inScripts r then st.lastNonSpace else st.i + 1) ≤ st.i + 1 := by
      split
      · omega
      · split <;> omega
    generalize (if IsSpace r then st.lastNonSpace
        else if inScripts r then st.i else st.lastWordIndex) = lwi at hlwi1 ⊢
    generalize (if IsSpace r then st.lastNonSpace
        else if inScripts r then st.lastNonSpace else st.i + 1) = lns at hlns1 ⊢
    by_cases htrig : ((st.currentLen + 1 : Nat) : Int) > L
    · rw [if_pos htrig]
      refine ⟨_, rfl, ?_⟩
      have hieq : (st.i : Int) = L := by
        rw [hcur] at htrig
        push_cast at htrig
        omega
      split
      · omega
      · omega
    · rw [if_neg htrig]
      apply ih
      · simp [hcur]
      · exact Nat.le_succ_of_le hlwi1
      · exact hlns1
      · rw [hcur] at htrig
        push_cast at htrig ⊢
        omega
      · simp only [List.length_cons] at hL
        push_cast at hL ⊢
        omega

theorem Truncate_count_le (inScripts : Nat → Bool) (text : GoString) (length : Int)
    (ending : GoString) (h : (UTF16RuneCountString ending : Int) ≤ length) :
    (UTF16RuneCountString (Truncate inScripts text length ending) : Int) ≤ length := by
  unfold Truncate
  simp only
  split
  · rename_i hshort
    omega
  · rename_i hlong
    have hlen : (StrToUTF16 text).length = UTF16RuneCountString text :=
      ((UTF16RuneCountString_eq text)).symm
    obtain ⟨pos, hpos, hle⟩ := truncateLoop_some inScripts
      (length - (UTF16RuneCountString ending : Int)) (StrToUTF16 text)
      { i := 0, lastWordIndex := 0, lastNonSpace := 0, currentLen := 0 }
      rfl (Nat.le_refl _) (Nat.le_refl _) (by simp; omega) (by simp [hlen]; omega)
    rw [hpos]
    simp only
    rw [UTF16RuneCountString_append, UTF16RuneCountString_UTF16ToStr
      ((StrToUTF16 text).take pos)
      (fun u hu => Encode_lt (runes text) u (List.mem_of_mem_take hu))]
    have htake : ((StrToUTF16 text).take pos).length ≤ pos := by
      rw [List.length_take]; exact Nat.min_le_left _ _
    push_cast
    omega

/-- C23: for every text, every ending and every length that is at least the
UTF-16 length of the ending, the UTF-16 length of `Truncate(text, length,
ending)` is at most `length`; so `TruncateEllipsized(text, n)` has at most `n`
UTF-16 units for every `n ≥ 2`. -/
theorem Truncate_length_le (inScripts : Nat → Bool) (text : GoString) (length : Int)
    (ending : GoString) (h : (UTF16RuneCountString ending : Int) ≤ length) :
    (UTF16RuneCountString (Truncate inScripts text length ending) : Int) ≤ length ∧
    ∀ n : Int, 2 ≤ n →
      (UTF16RuneCountString (TruncateEllipsized inScripts text n) : Int) ≤ n := by
  refine ⟨Truncate_count_le inScripts text length ending h, ?_⟩
  intro n hn
  have hell : UTF16RuneCountString TruncateEllipsis = 2 := by decide
  exact Truncate_count_le inScripts text n TruncateEllipsis (by rw [hell]; exact_mod_cast hn)

/-- A text of 21 units cut to 12 with an ending of 3 units has 8 units, and
with the ellipsis 7; cut in the middle of a surrogate pair it has 1 unit. -/
theorem Truncate_length_le_witness :
    UTF16RuneCountString
        (Truncate noScripts (ofString "hello brave new world") 12 (ofString "...")) = 8 ∧
    UTF16RuneCountString
        (TruncateEllipsized noScripts (ofString "hello brave new world") 12) = 7 ∧
    ((UTF16RuneCountString
        (Truncate noScripts (ofString "hello brave new world") 12 (ofString "...")) : Int) ≤ 12 ∧
      ∀ n : Int, 2 ≤ n →
        (UTF16RuneCountString
          (TruncateEllipsized noScripts (ofString "hello brave new world") n) : Int) ≤ n) :=
  ⟨by decide, by decide,
   Truncate_length_le noScripts (ofString "hello brave new world") 12 (ofString "...")
     (by decide)⟩

/-- C25 fails on the code: `Truncate` cuts at a UTF-16 index without looking at
surrogate pairs. For the text `ab`, U+1F600, `cd` and `TruncateEllipsized` with
length 5 the cut falls inside the pair; the lone high surrogate is decoded to
U+FFFD, which occurs neither in the text nor in the ending, and the units of
the result are not a prefix of the units of the text followed by the ending. -/
theorem Truncate_splits_surrogate_pair :
    StrToUTF16 emojiText = [97, 98, 55357, 56832, 99, 100] ∧
    StrToUTF16 TruncateEllipsis = [32, 8230] ∧
    (5 : Int) - UTF16RuneCountString TruncateEllipsis < UTF16RuneCountString emojiText ∧
    StrToUTF16 (Truncate noScripts emojiText 5 TruncateEllipsis) = [97, 98, 65533, 32, 8230] ∧
    ¬ ∃ p, p <+: StrToUTF16 emojiText ∧
      StrToUTF16 (Truncate noScripts emojiText 5 TruncateEllipsis) =
        p ++ StrToUTF16 TruncateEllipsis := by
  refine ⟨by decide, by decide, by decide, by decide, ?_⟩
  rintro ⟨p, ⟨t, ht⟩, heq⟩
  have h1 : StrToUTF16 (Truncate noScripts emojiText 5 TruncateEllipsis) =
      [97, 98, 65533, 32, 8230] := by decide
  have h2 : StrToUTF16 TruncateEllipsis = [32, 8230] := by decide
  have h3 : StrToUTF16 emojiText = [97, 98, 55357, 56832, 99, 100] := by decide
  rw [h1, h2] at heq
  rw [h3] at ht
  have hp : p = [97, 98, 65533] := by
    have hlen : p.length = 3 := by
      have := congrArg List.length heq
      simp at this
      omega
    match p, hlen with
    | [a, b, c], _ =>
      simp only [List.cons_append, List.nil_append, List.cons.injEq] at heq
      obtain ⟨ha, hb, hc, _⟩ := heq
      rw [← ha, ← hb, ← hc]
  subst hp
  simp at ht

theorem spaceAt_nonSpaceAt (units : List Nat) (j : Nat) (hs : spaceAt units j)
    (hn : nonSpaceAt units j) : False := by
  obtain ⟨u, hu, hsp⟩ := hs
  obtain ⟨v, hv, hnsp⟩ := hn
  rw [hu] at hv
  cases hv
  rw [hsp] at hnsp
  cases hnsp

theorem truncateLoop_step_invariants (units : List Nat) (i lwi lns r : Nat)
    (inScripts : Nat → Bool) (hget : units[i]? = some r) (hscr : inScripts r = false)
    (hlns : lastNonSpaceIs units i lns) (hlwi : lastWordIndexIs units i lwi) :
    lastNonSpaceIs units (i + 1)
        (if IsSpace r then lns else if inScripts r then lns else i + 1) ∧
      lastWordIndexIs units (i + 1)
        (if IsSpace r then lns else if inScripts r then i else lwi) := by
  by_cases hsp : IsSpace r = true
  · have hspace : spaceAt units i := ⟨r, hget, hsp⟩
    simp only [hsp, if_true]
    constructor
    · rcases hlns with ⟨h0, hall⟩ | ⟨m, hm, hmi, hmn, hall⟩
      · refine Or.inl ⟨h0, fun t ht => ?_⟩
        by_cases hti : t = i
        · subst hti; exact hspace
        · exact hall t (by omega)
      · refine Or.inr ⟨m, hm, by omega, hmn, fun t hmt ht => ?_⟩
        by_cases hti : t = i
        · subst hti; exact hspace
        · exact hall t hmt (by omega)
    · rcases hlns with ⟨h0, hall⟩ | ⟨m, hm, hmi, hmn, hall⟩
      · exact Or.inl ⟨h0, fun j k hj _ hk => hall k (by omega)⟩
      · exact Or.inr ⟨i, m, hm, by omega, hmi, hspace, fun j1 h1 h2 => by omega, hmn, hall⟩
  · have hsp1 : IsSpace r = false := by simpa using hsp
    have hnon : nonSpaceAt units i := ⟨r, hget, hsp1⟩
    simp only [hsp1, hscr, Bool.false_eq_true, if_false]
    constructor
    · exact Or.inr ⟨i, rfl, by omega, hnon, fun t h1 h2 => by omega⟩
    · rcases hlwi with ⟨h0, hall⟩ | ⟨j, k, hk, hji, hkj, hjs, hafter, hkn, hbetween⟩
      · refine Or.inl ⟨h0, fun j k hj hjs hk => ?_⟩
        by_cases hji : j = i
        · subst hji; exact absurd hnon (fun h => spaceAt_nonSpaceAt units j hjs h)
        · exact hall j k (by omega) hjs hk
      · refine Or.inr ⟨j, k, hk, by omega, hkj, hjs, fun j1 h1 h2 => ?_, hkn, hbetween⟩
        by_cases hj1 : j1 = i
        · subst hj1; exact hnon
        · exact hafter j1 h1 (by omega)

theorem truncateLoop_word (inScripts : Nat → Bool) (L : Nat) (units : List Nat)
    (hscripts : ∀ u ∈ units, inScripts u = false) :
    ∀ (rest pre : List Nat) (st : TruncateState), units = pre ++ rest → pre.length = st.i →
      st.currentLen = st.i → lastNonSpaceIs units st.i st.lastNonSpace →
      lastWordIndexIs units st.i st.lastWordIndex → st.i ≤ L → L < units.length →
      ∃ lwi, truncateLoop inScripts (L : Int) rest st = some (if lwi = 0 then L else lwi) ∧
        lastWordIndexIs units (L + 1) lwi := by
  intro rest
  induction rest with
  | nil =>
    intro pre st hunits hpre _ _ _ hi hL
    rw [hunits, List.append_nil, hpre] at hL
    omega
  | cons r rest ih =>
    intro pre st hunits hpre hcur hlns hlwi hi hL
    have hget : units[st.i]? = some r := by
      rw [hunits, ← hpre, List.getElem?_append_right (Nat.le_refl _)]
      simp
    have hscr : inScripts r = false := hscripts r (by rw [hunits]; simp)
    obtain ⟨hlns1, hlwi1⟩ :=
      truncateLoop_step_invariants units st.i st.lastWordIndex st.lastNonSpace r inScripts
        hget hscr hlns hlwi
    simp only [truncateLoop]
    generalize (if IsSpace r then st.lastNonSpace
        else if inScripts r then st.i else st.lastWordIndex) = lwi at hlwi1 ⊢
    generalize (if IsSpace r then st.lastNonSpace
        else if inScripts r then st.lastNonSpace else st.i + 1) = lns at hlns1 ⊢
    by_cases htrig : ((st.currentLen + 1 : Nat) : Int) > (L : Int)
    · rw [if_pos htrig]
      have hieq : st.i = L := by
        rw [hcur] at htrig
        omega
      refine ⟨lwi, ?_, hieq ▸ hlwi1⟩
      rw [hieq]
    · rw [if_neg htrig]
      have hlt : st.i + 1 ≤ L := by
        rw [hcur] at htrig
        omega
      exact ih (pre ++ [r])
        { i := st.i + 1, lastWordIndex := lwi, lastNonSpace := lns,
          currentLen := st.currentLen + 1 }
        (by rw [hunits]; simp) (by simp [hpre]) (by simp [hcur]) hlns1 hlwi1 hlt hL

theorem Truncate_cut (inScripts : Nat → Bool) (text : GoString) (length : Int)
    (ending : GoString) (L : Nat)
    (hL : length - (UTF16RuneCountString ending : Int) = (L : Int))
    (hlong : L < (StrToUTF16 text).length)
    (hscripts : ∀ u ∈ StrToUTF16 text, inScripts u = false) :
    ∃ lwi, lastWordIndexIs (StrToUTF16 text) (L + 1) lwi ∧
      Truncate inScripts text length ending =
        UTF16ToStr ((StrToUTF16 text).take (if lwi = 0 then L else lwi)) ++ ending := by
  obtain ⟨lwi, hloop, hinv⟩ := truncateLoop_word inScripts L (StrToUTF16 text) hscripts
    (StrToUTF16 text) [] { i := 0, lastWordIndex := 0, lastNonSpace := 0, currentLen := 0 }
    rfl rfl rfl (Or.inl ⟨rfl, fun t ht => absurd ht (Nat.not_lt_zero t)⟩)
    (Or.inl ⟨rfl, fun j k hj => absurd hj (Nat.not_lt_zero j)⟩) (Nat.zero_le L) hlong
  refine ⟨lwi, hinv, ?_⟩
  have hcount : ¬ ((UTF16RuneCountString text : Int) ≤ (L : Int)) := by
    rw [UTF16RuneCountString_eq]
    omega
  unfold Truncate
  simp only [hL, hcount, if_false, hloop]

theorem take_roundtrip (rs : List Nat)
    (hvalid : ∀ r ∈ rs, r < surr1 ∨ (surr3 ≤ r ∧ r ≤ maxRune)) :
    ∀ n : Nat, (∀ u, (Encode rs)[n]? = some u → ¬ (surr2 ≤ u ∧ u < surr3)) →
      Encode ((Decode ((Encode rs).take n)).map fun r => (runeToChar r).toNat) =
        (Encode rs).take n := by
  induction rs with
  | nil => intro n _; simp [Encode, Decode]
  | cons r rest ih =>
    have hr := hvalid r (List.mem_cons_self r rest)
    have ihrest := ih (fun x hx => hvalid x (List.mem_cons_of_mem r hx))
    intro n hn
    by_cases hbmp : r < surr1 ∨ (surr3 ≤ r ∧ r < surrSelf)
    · have henc : Encode (r :: rest) = r :: Encode rest := by simp [Encode, hbmp]
      rw [henc] at hn ⊢
      cases n with
      | zero => simp [Decode, Encode]
      | succ m =>
        have hnormal : r < surr1 ∨ surr3 ≤ r := by
          rcases hbmp with h | h
          · exact Or.inl h
          · exact Or.inr h.1
        have hsan : (runeToChar r).toNat = r := by
          rw [runeToChar_toNat, if_pos hr]
        rw [List.take_succ_cons, Decode_normal r _ hnormal, List.map_cons, hsan]
        have hstep : Encode (r :: (Decode ((Encode rest).take m)).map
            fun r => (runeToChar r).toNat) =
            r :: Encode ((Decode ((Encode rest).take m)).map fun r => (runeToChar r).toNat) := by
          simp [Encode, hbmp]
        rw [hstep, ihrest m (fun u hu => hn u (by simpa using hu))]
    · have hsupp : surrSelf ≤ r ∧ r ≤ maxRune := by
        simp only [surr1, surr3, surrSelf, maxRune] at hr hbmp ⊢
        omega
      have henc : Encode (r :: rest) =
          (EncodeRune r).1 :: (EncodeRune r).2 :: Encode rest := by
        simp [Encode, hbmp, hsupp]
      rw [henc] at hn ⊢
      have hhigh : surr1 ≤ (EncodeRune r).1 ∧ (EncodeRune r).1 < surr2 := by
        simp only [EncodeRune, surr1, surr2, surrSelf, maxRune] at hsupp ⊢
        omega
      have hlow : surr2 ≤ (EncodeRune r).2 ∧ (EncodeRune r).2 < surr3 := by
        simp only [EncodeRune, surr2, surr3, surrSelf, maxRune] at hsupp ⊢
        omega
      cases n with
      | zero => simp [Decode, Encode]
      | succ m =>
        cases m with
        | zero => exact absurd hlow (hn _ (by simp))
        | succ m =>
          have hnot : ¬ ((EncodeRune r).1 < surr1 ∨ surr3 ≤ (EncodeRune r).1) := by
            simp only [surr1, surr2, surr3] at hhigh ⊢
            omega
          have hdec : DecodeRune (EncodeRune r).1 (EncodeRune r).2 = r := by
            simp only [DecodeRune, EncodeRune, surr1, surr2, surrSelf, maxRune] at hsupp ⊢
            omega
          have hsan : (runeToChar r).toNat = r := by
            rw [runeToChar_toNat, if_pos hr]
          rw [List.take_succ_cons, List.take_succ_cons,
            Decode_pair _ _ _ hnot ⟨hhigh.1, hhigh.2, hlow.1, hlow.2⟩, hdec, List.map_cons,
            hsan]
          have hstep : Encode (r :: (Decode ((Encode rest).take m)).map
              fun r => (runeToChar r).toNat) =
              (EncodeRune r).1 :: (EncodeRune r).2 ::
                Encode ((Decode ((Encode rest).take m)).map fun r => (runeToChar r).toNat) := by
            simp [Encode, hbmp, hsupp]
          rw [hstep, ihrest m (fun u hu => hn u (by simpa using hu))]

theorem runes_valid (s : GoString) : ∀ r ∈ runes s, r < surr1 ∨ (surr3 ≤ r ∧ r ≤ maxRune) := by
  intro r hr
  simp only [runes, List.mem_map] at hr
  obtain ⟨ch, _, rfl⟩ := hr
  cases ch with
  | rune c =>
    have hc := char_range c
    simp only [GoChar.toRune, surr1, surr3, maxRune]
    omega
  | invalid b => simp [GoChar.toRune, RuneError, surr1, surr3, maxRune]

theorem StrToUTF16_UTF16ToStr_take (text : GoString) (n : Nat)
    (hn : ∀ u, (StrToUTF16 text)[n]? = some u → ¬ (surr2 ≤ u ∧ u < surr3)) :
    StrToUTF16 (UTF16ToStr ((StrToUTF16 text).take n)) = (StrToUTF16 text).take n := by
  simp only [StrToUTF16, UTF16ToStr, runes_stringOfRunes] at hn ⊢
  exact take_roundtrip (runes text) (runes_valid text) n hn

theorem IsSpace_not_low (u : Nat) (h : IsSpace u = true) : ¬ (surr2 ≤ u ∧ u < surr3) := by
  simp only [IsSpace, Bool.or_eq_true, Bool.and_eq_true, decide_eq_true_eq, beq_iff_eq] at h
  simp only [surr2, surr3]
  omega

theorem take_exact_of_spaceAt (text : GoString) (n : Nat)
    (h : spaceAt (StrToUTF16 text) n) :
    StrToUTF16 (UTF16ToStr ((StrToUTF16 text).take n)) = (StrToUTF16 text).take n := by
  obtain ⟨u, hu, hsp⟩ := h
  apply StrToUTF16_UTF16ToStr_take
  intro v hv
  rw [hu] at hv
  cases hv
  exact IsSpace_not_low u hsp

/-- `Truncate` cuts at whole-word boundaries. For every text without a unit of
the scripts Han, Hangul, Hiragana, Katakana and every budget `L = length -
|ending| ≥ 0` smaller than the UTF-16 length of the text: if some white-space
unit at an index `≤ L` comes after a unit that is not white space, then, with
`j` the last white-space unit at an index `≤ L` and `k` the last unit before
`j` that is not white space, the result is the units `[0, k+1)` of the text,
as a string, followed by the ending, unit `k+1` is white space and the units
of that string are exactly the units `[0, k+1)`; otherwise the result is the
first `L` units of the text, as a string, followed by the ending, and the
units of that string are exactly the first `L` units when unit `L` is not the
second half of a surrogate pair. -/
theorem Truncate_word_boundary (inScripts : Nat → Bool) (text : GoString) (length : Int)
    (ending : GoString) (L : Nat)
    (hL : length - (UTF16RuneCountString ending : Int) = (L : Int))
    (hlong : L < (StrToUTF16 text).length)
    (hscripts : ∀ u ∈ StrToUTF16 text, inScripts u = false) :
    ((∃ j k1, j ≤ L ∧ spaceAt (StrToUTF16 text) j ∧ k1 < j ∧ nonSpaceAt (StrToUTF16 text) k1) →
      ∃ j k, j ≤ L ∧ spaceAt (StrToUTF16 text) j ∧
        (∀ j1, j < j1 → j1 ≤ L → nonSpaceAt (StrToUTF16 text) j1) ∧
        k < j ∧ nonSpaceAt (StrToUTF16 text) k ∧
        (∀ k1, k < k1 → k1 < j → spaceAt (StrToUTF16 text) k1) ∧
        spaceAt (StrToUTF16 text) (k + 1) ∧
        Truncate inScripts text length ending =
          UTF16ToStr ((StrToUTF16 text).take (k + 1)) ++ ending ∧
        StrToUTF16 (UTF16ToStr ((StrToUTF16 text).take (k + 1))) =
          (StrToUTF16 text).take (k + 1)) ∧
    (∀ j k, j ≤ L → spaceAt (StrToUTF16 text) j →
      (∀ j1, j < j1 → j1 ≤ L → nonSpaceAt (StrToUTF16 text) j1) →
      k < j → nonSpaceAt (StrToUTF16 text) k →
      (∀ k1, k < k1 → k1 < j → spaceAt (StrToUTF16 text) k1) →
      Truncate inScripts text length ending =
        UTF16ToStr ((StrToUTF16 text).take (k + 1)) ++ ending) ∧
    ((¬ ∃ j k1, j ≤ L ∧ spaceAt (StrToUTF16 text) j ∧ k1 < j ∧
        nonSpaceAt (StrToUTF16 text) k1) →
      Truncate inScripts text length ending =
        UTF16ToStr ((StrToUTF16 text).take L) ++ ending ∧
      ((∀ u, (StrToUTF16 text)[L]? = some u → ¬ (surr2 ≤ u ∧ u < surr3)) →
        StrToUTF16 (UTF16ToStr ((StrToUTF16 text).take L)) = (StrToUTF16 text).take L)) := by
  obtain ⟨lwi, hinv, hcut⟩ := Truncate_cut inScripts text length ending L hL hlong hscripts
  refine ⟨?_, ?_, ?_⟩
  · rintro ⟨j, k1, hj, hjs, hk1, hk1n⟩
    rcases hinv with ⟨_, hall⟩ | ⟨j0, k0, hk, hj0, hk0, hj0s, hafter, hk0n, hbetween⟩
    · exact absurd hk1n (fun h => spaceAt_nonSpaceAt _ k1 (hall j k1 (by omega) hjs hk1) h)
    · have hnext : spaceAt (StrToUTF16 text) (k0 + 1) := by
        by_cases hk0j : k0 + 1 = j0
        · rw [hk0j]; exact hj0s
        · exact hbetween (k0 + 1) (by omega) (by omega)
      refine ⟨j0, k0, by omega, hj0s, fun j1 h1 h2 => hafter j1 h1 (by omega), hk0, hk0n,
        hbetween, hnext, ?_, take_exact_of_spaceAt text (k0 + 1) hnext⟩
      rw [hcut, hk]
      simp
  · intro j k hj hjs hjlast hkj hkn hkbetween
    rcases hinv with ⟨_, hall⟩ | ⟨j0, k0, hk, hj0, hk0, hj0s, hafter, hk0n, hbetween⟩
    · exact absurd hkn (fun h => spaceAt_nonSpaceAt _ k (hall j k (by omega) hjs hkj) h)
    · have hjeq : j = j0 := by
        rcases Nat.lt_trichotomy j j0 with h | h | h
        · exact absurd (hjlast j0 h (by omega)) (fun hn => spaceAt_nonSpaceAt _ j0 hj0s hn)
        · exact h
        · exact absurd (hafter j h (by omega)) (fun hn => spaceAt_nonSpaceAt _ j hjs hn)
      subst hjeq
      have hkeq : k = k0 := by
        rcases Nat.lt_trichotomy k k0 with h | h | h
        · exact absurd hk0n (fun hn => spaceAt_nonSpaceAt _ k0 (hkbetween k0 h hk0) hn)
        · exact h
        · exact absurd hkn (fun hn => spaceAt_nonSpaceAt _ k (hbetween k h hkj) hn)
      subst hkeq
      rw [hcut, hk]
      simp
  · intro hnone
    rcases hinv with ⟨h0, _⟩ | ⟨j0, k0, _, hj0, hk0, hj0s, _, hk0n, _⟩
    · refine ⟨?_, StrToUTF16_UTF16ToStr_take text L⟩
      rw [hcut, h0]
      simp
    · exact absurd ⟨j0, k0, by omega, hj0s, hk0, hk0n⟩ hnone

/-- The text `ab  cd ef` cut with budget 5: the last white-space unit at an
index `≤ 5` is unit 3, the last unit before it that is not white space is unit
1, and the result is `ab`. The text `helloworld` has no white space and is cut
with budget 4 to its first 4 units. -/
theorem Truncate_word_boundary_witness :
    Truncate noScripts (ofString "ab  cd ef") 5 [] = ofString "ab" ∧
    Truncate noScripts (ofString "helloworld") 4 [] = ofString "hell" := by
  have hunits : StrToUTF16 (ofString "ab  cd ef") = [97, 98, 32, 32, 99, 100, 32, 101, 102] := by
    decide
  have hello : StrToUTF16 (ofString "helloworld") =
      [104, 101, 108, 108, 111, 119, 111, 114, 108, 100] := by decide
  constructor
  · refine ((Truncate_word_boundary noScripts (ofString "ab  cd ef") 5 [] 5 (by decide)
      (by decide) (fun _ _ => rfl)).2.1 3 1 (by decide) ⟨32, by rw [hunits]; rfl, by decide⟩
      ?_ (by decide) ⟨98, by rw [hunits]; rfl, by decide⟩ ?_).trans (by decide)
    · intro j1 h1 h2
      rw [hunits]
      interval_cases j1
      · exact ⟨99, rfl, by decide⟩
      · exact ⟨100, rfl, by decide⟩
    · intro k1 h1 h2
      rw [hunits]
      interval_cases k1
      exact ⟨32, rfl, by decide⟩
  · refine ((Truncate_word_boundary noScripts (ofString "helloworld") 4 [] 4 (by decide)
      (by decide) (fun _ _ => rfl)).2.2 ?_).1.trans (by decide)
    rintro ⟨j, k1, hj, ⟨u, hu, hsp⟩, _, _⟩
    rw [hello] at hu
    interval_cases j <;> simp at hu <;> subst hu <;> exact absurd hsp (by decide)

end Text

namespace Filestorage

/-! ## Properties of the proxy store -/

/-- C27: `proxyStore.Get` is a read-through cache lookup. If the cache returns
a block without error, `Get` returns that block and the origin is not queried;
if the cache fails with a not-found error, `Get` returns the block and error of
the origin and, when the origin succeeded, offers the block to the cache,
whatever the cache add returns; if the cache fails with any other error, `Get`
returns that error and the origin is not queried. -/
theorem proxyStore_Get_read_through (c : proxyStore) (k : Cid) :
    (∀ b, c.cacheGet k = (b, none) →
      c.Get k = { b := b, err := none, calls := [Call.cacheGet k] }) ∧
    (∀ b err, c.cacheGet k = (b, some err) → c.IsNotFound err = true →
      (c.Get k).b = (c.originGet k).1 ∧ (c.Get k).err = (c.originGet k).2 ∧
      (c.Get k).calls =
        if (c.originGet k).2 = none then
          [Call.cacheGet k, Call.originGet k,
            Call.cacheAdd [(c.originGet k).1] (c.cacheAdd [(c.originGet k).1])]
        else [Call.cacheGet k, Call.originGet k]) ∧
    (∀ b err, c.cacheGet k = (b, some err) → c.IsNotFound err = false →
      c.Get k = { b := b, err := some err, calls := [Call.cacheGet k] }) := by
  refine ⟨?_, ?_, ?_⟩
  · intro b hb
    simp [proxyStore.Get, hb]
  · intro b err hb hnf
    rcases horigin : c.originGet k with ⟨b1, _ | err1⟩
    · simp [proxyStore.Get, hb, hnf, horigin]
    · simp [proxyStore.Get, hb, hnf, horigin]
  · intro b err hb hnf
    simp [proxyStore.Get, hb, hnf]

/-- A hit, a miss with a cache that cannot add, and a cache failure. -/
theorem proxyStore_Get_read_through_witness :
    hitStore.Get "cid1" = { b := some block1, err := none, calls := [Call.cacheGet "cid1"] } ∧
    missStore.Get "cid1" =
      { b := some block1, err := none,
        calls := [Call.cacheGet "cid1", Call.originGet "cid1",
          Call.cacheAdd [some block1] (some "disk full")] } ∧
    brokenStore.Get "cid1" =
      { b := none, err := some "io error", calls := [Call.cacheGet "cid1"] } :=
  ⟨(proxyStore_Get_read_through hitStore "cid1").1 (some block1) rfl,
   by decide,
   (proxyStore_Get_read_through brokenStore "cid1").2.2 none "io error" rfl rfl⟩

end Filestorage

namespace Import

/-! ## Markdown import: the document name -/

theorem headerTitle_no_header (parsedBlocks : List Block)
    (h : ∀ text rest, parsedBlocks = Block.text TextStyle.Header1 text :: rest → text = "") :
    ∃ rest, headerTitle parsedBlocks = ("", "", rest) := by
  unfold headerTitle
  split
  · next text rest =>
    have ht : text = "" := h text rest rfl
    subst ht
    exact ⟨rest, rfl⟩
  · exact ⟨_, rfl⟩

/-- C29 fails on the code: for a page whose first parsed block is not a Header1
text block, or whose Header1 text is empty, the title stored in `file.title`
and sent as the `name` detail is the empty string, for every file name. The
title derived from the file name is computed, but into the variable that
`title :=` declares inside the block `if title == ""`, which is dropped at the
end of that block. -/
theorem setDocumentName_title_empty (GetRandomString : List String → String → String)
    (name : String) (file : fileInfo) (hpage : file.pageID ≠ "")
    (hfirst : ∀ text rest,
      file.parsedBlocks = Block.text TextStyle.Header1 text :: rest → text = "") :
    ∃ file1 request,
      setDocumentName GetRandomString name file =
        NameStep.named file1 request (some (fileNameTitle name)) ∧
      file1.title = "" ∧
      request.ContextId = file.pageID ∧
      request.Details = [("name", ""), ("iconEmoji", GetRandomString articleIcons name)] := by
  obtain ⟨rest, hrest⟩ := headerTitle_no_header file.parsedBlocks hfirst
  refine ⟨{ file with parsedBlocks := rest, title := "" },
    { ContextId := file.pageID,
      Details := [("name", ""), ("iconEmoji", GetRandomString articleIcons name)] }, ?_, rfl, rfl, rfl⟩
  simp only [setDocumentName, hpage, hrest, if_false, if_true]

/-- The page of the root file `Getting Started 1a2b3c.md`, whose first block
is a paragraph: the title derived from the file name is `Getting Started`, the
title stored and sent is empty. -/
theorem setDocumentName_title_empty_witness :
    fileNameTitle "Getting Started 1a2b3c.md" = "Getting Started" ∧
    ∃ file1 request,
      setDocumentName firstString "Getting Started 1a2b3c.md" plainPage =
        NameStep.named file1 request (some (fileNameTitle "Getting Started 1a2b3c.md")) ∧
      file1.title = "" ∧
      request.ContextId = plainPage.pageID ∧
      request.Details = [("name", ""),
        ("iconEmoji", firstString articleIcons "Getting Started 1a2b3c.md")] :=
  ⟨by decide,
   setDocumentName_title_empty firstString "Getting Started 1a2b3c.md" plainPage
    (by decide) (by intro text rest h; cases h)⟩

end Import

